import Mathlib

/-!
Grip rep: property selection, truncation and rendering.

A shallow embedding of `src/reps/grip.js` (the generic grip renderer) and of
`src/reps/prop-rep.js` (the property formatter), followed by the theorems that
settle the claims of the specification.

Conventions of the embedding:

* JavaScript values are the inductive `JSValue`; an object is the list of its own
  enumerable properties in enumeration order (what `Object.keys` and `for … in`
  walk through).
* A JavaScript exception is the `error` side of `Except JSError`; `try … catch`
  is a `match` on it. `console.error` has no effect on the result and is left out.
* Calls into code outside the two files (`Rep`, the `PropRep` and `Caption`
  factories, `safeObjectLink`, `React.DOM.span`) are recorded as nodes of the
  output tree, with the arguments they were given.
-/

namespace Reps

/-! ## JavaScript values -/

/-- JavaScript values that occur in a grip received from the server. -/
inductive JSValue where
  | undefined
  | null
  | boolean (b : Bool)
  | number (n : Int)
  | string (s : String)
  | object (fields : List (String × JSValue))

/-- Own enumerable properties of an object, in enumeration order. -/
abbrev JSObject := List (String × JSValue)

/-- Exceptions raised by the embedded code. -/
inductive JSError where
  | typeError
  | thrown
  deriving DecidableEq, Repr

/-- Result of `Object.keys(o)` for a plain object. -/
def JSObject.keys (o : JSObject) : List String :=
  o.map Prod.fst

/-- Result of the property read `o[name]` on a plain object: `undefined` when absent. -/
def JSObject.get (o : JSObject) (name : String) : JSValue :=
  match o.find? (fun p => p.1 == name) with
  | some p => p.2
  | none => JSValue.undefined

/-- Result of `typeof v`. -/
def JSValue.typeof : JSValue → String
  | .undefined => "undefined"
  | .null => "object"
  | .boolean _ => "boolean"
  | .number _ => "number"
  | .string _ => "string"
  | .object _ => "object"

/-- Truthiness of a value, as used by `||`, `&&`, `?:` and `!`. -/
def JSValue.truthy : JSValue → Bool
  | .undefined => false
  | .null => false
  | .boolean b => b
  | .number n => n != 0
  | .string s => s != ""
  | .object _ => true

/-- Number of UTF-16 code units of a string, the `length` of a JavaScript string. -/
def utf16Length (s : String) : Nat :=
  (s.data.map (fun c => if c.val.toNat < 65536 then 1 else 2)).sum

/-- Result of the property read `v.name`, for the names read in `grip.js` (`class`
and `length`): a TypeError on `undefined` and `null`, the field on an object, the
number of code units for the `length` of a string, `undefined` otherwise. -/
def JSValue.getProp (v : JSValue) (name : String) : Except JSError JSValue :=
  match v with
  | .undefined => .error .typeError
  | .null => .error .typeError
  | .object fields => .ok (JSObject.get fields name)
  | .string s => if name = "length" then .ok (.number (utf16Length s)) else .ok .undefined
  | _ => .ok .undefined

/-- Result of `s.toLowerCase()` on the letters A to Z. -/
def toLowerCase (s : String) : String :=
  String.mk (s.data.map Char.toLower)

/-! ## Grips -/

/-- Bounded snapshot of the contents of a remote object. A field that is `none`
is absent from the preview (reads as `undefined`). -/
structure Preview where
  ownProperties : Option JSObject := none
  ownPropertiesLength : Option Int := none
  safeGetterValues : Option JSObject := none
  wrappedValue : Option JSValue := none

/-- Client representation of a remote object. -/
structure Grip where
  class_ : Option String := none
  preview : Option Preview := none
  ownPropertyLength : Option Int := none

/-- Rendering modes of `constants.js`. -/
inductive Mode where
  | TINY
  | SHORT
  | LONG
  deriving DecidableEq, Repr

/-- The signature `(type, value, name)` of an interesting-property predicate; the
boolean is the truthiness of what the function returns. -/
abbrev Filter := String → JSValue → String → Except JSError Bool

/-- Reps that can be named as `defaultRep`. -/
inductive RepId where
  | Grip
  deriving DecidableEq, Repr

/-- Props bag of a component. `α` is the type of the `object` prop. A field that
is `none` is absent (reads as `undefined`); functions other than the
interesting-property predicate are never called here and are kept as handles. -/
structure Props (α : Type) where
  object : α
  mode : Option Mode := none
  isInterestingProp : Option Filter := none
  title : Option String := none
  objectLink : Option Nat := none
  attachedActorIds : Option (List String) := none
  onDOMNodeMouseOver : Option Nat := none
  onDOMNodeMouseOut : Option Nat := none
  onInspectIconClick : Option Nat := none
  name : Option JSValue := none
  equal : Option String := none
  delim : Option String := none
  defaultRep : Option RepId := none
  suppressQuotes : Option Bool := none

/-- Output tree. Every constructor but `text` records a call into code outside
`grip.js` and `prop-rep.js`. -/
inductive Node where
  | text (s : String)
  | span (className : Option String) (children : List Node)
  | safeObjectLink (props : Props Grip) (className : Option String) (content : String)
  | caption (object : Node)
  | propRep (props : Props JSValue)
  | rep (props : Props JSValue)

/-! ## Value extractor -/

/-- Embedding of `getPropValue(property)`. -/
def getPropValue (property : JSValue) : Except JSError JSValue :=
  if property.typeof = "object" then
    match property with
    | .object fields =>
      let keys := JSObject.keys fields
      if keys.contains "value" then .ok (JSObject.get fields "value")
      else if keys.contains "getterValue" then .ok (JSObject.get fields "getterValue")
      else .ok property
    | _ => .error .typeError
  else
    .ok property

/-! ## Property selector -/

/-- Lines 195 to 197 of `grip.js`: the type name handed to the filter,
`(value.class || typeof value).toLowerCase()`. -/
def typeOfValue (value : JSValue) : Except JSError String := do
  let c ← value.getProp "class"
  if c.truthy then
    match c with
    | .string s => .ok (toLowerCase s)
    | _ => .error .typeError
  else
    .ok (toLowerCase value.typeof)

/-- Body of one iteration of the loop of `getPropIndexes`, up to the test of the
filter: the truthiness of `filter(type, value, name)`, or the exception raised on
the way. -/
def classify (properties : JSObject) (filter : Filter) (name : String) :
    Except JSError Bool := do
  let value ← getPropValue (properties.get name)
  let type ← typeOfValue value
  filter type value name

/-- Loop of `getPropIndexes` over the remaining names, with the loop counter `i`
and the array `indexes` built so far. An exception leaves the loop through the
`catch`, after which `indexes` is returned as it stands. -/
def getPropIndexesLoop (properties : JSObject) (max : Int) (filter : Filter) :
    List String → Nat → List Nat → List Nat
  | [], _, indexes => indexes
  | name :: rest, i, indexes =>
    if (indexes.length : Int) ≥ max then indexes
    else
      match classify properties filter name with
      | .error _ => indexes
      | .ok true => getPropIndexesLoop properties max filter rest (i + 1) (indexes ++ [i])
      | .ok false => getPropIndexesLoop properties max filter rest (i + 1) indexes

/-- Embedding of `getPropIndexes(properties, max, filter)`. `properties` is `none`
when the argument is `undefined`, which `for … in` walks as an empty object. -/
def getPropIndexes (properties : Option JSObject) (max : Int) (filter : Filter) :
    List Nat :=
  match properties with
  | none => []
  | some o => getPropIndexesLoop o max filter o.keys 0 []

/-- Characters that `ToNumber` strips from both ends of a string. -/
def isJSWhiteSpace (c : Char) : Bool :=
  c == ' ' || c == '\t' || c == '\n' || c == '\r' || c.val == 11 || c.val == 12 ||
  c.val == 160 || c.val == 5760 || (8192 ≤ c.val && c.val ≤ 8202) || c.val == 8232 ||
  c.val == 8233 || c.val == 8239 || c.val == 8287 || c.val == 12288 || c.val == 65279

/-- Whether an unsigned decimal literal (digits, optional fraction, optional
exponent), given as characters, is well formed with every mantissa digit `0`. -/
def decimalIsZero (cs : List Char) : Bool :=
  let mantissa := cs.takeWhile (fun c => c != 'e' && c != 'E')
  let exponent := cs.dropWhile (fun c => c != 'e' && c != 'E')
  let intPart := mantissa.takeWhile (fun c => c != '.')
  let fracPart := (mantissa.dropWhile (fun c => c != '.')).drop 1
  let expDigits :=
    match exponent.drop 1 with
    | '+' :: ds => ds
    | '-' :: ds => ds
    | ds => ds
  (intPart ++ fracPart).all (fun c => c == '0') && (intPart ++ fracPart) != [] &&
    (exponent == [] || (expDigits != [] && expDigits.all Char.isDigit))

/-- Whether `ToNumber(s)` is zero, for a string `s`: the empty or blank string, a
decimal literal whose digits are all `0`, or a `0x`, `0o`, `0b` literal whose
digits are all `0`. Numbers are integers here, so a literal that is zero only by
floating-point underflow is not counted. -/
def stringToNumberIsZero (s : String) : Bool :=
  let cs := ((s.data.dropWhile isJSWhiteSpace).reverse.dropWhile isJSWhiteSpace).reverse
  match cs with
  | [] => true
  | '0' :: r :: ds =>
    if r == 'x' || r == 'X' || r == 'o' || r == 'O' || r == 'b' || r == 'B' then
      ds != [] && ds.all (fun c => c == '0')
    else decimalIsZero cs
  | '+' :: ds => decimalIsZero ds
  | '-' :: ds => decimalIsZero ds
  | _ => decimalIsZero cs

/-- Result of the loose comparison `v == 0`. An object converts to a string that
is not a number. -/
def looseEqZero : JSValue → Bool
  | .undefined => false
  | .null => false
  | .boolean b => !b
  | .number n => n == 0
  | .string s => stringToNumberIsZero s
  | .object _ => false

/-- The default interesting-property predicate, lines 87 to 93 of `grip.js`. -/
def defaultIsInterestingProp : Filter := fun type value _ =>
  if type == "boolean" || type == "number" then .ok true
  else if type == "string" then do
    let length ← value.getProp "length"
    .ok (!(looseEqZero length))
  else .ok false

/-- The filter of the second pass, `(t, value, name) => !isInterestingProp(t, value, name)`. -/
def negateFilter (isInterestingProp : Filter) : Filter := fun t value name =>
  match isInterestingProp t value name with
  | .ok b => .ok (!b)
  | .error e => .error e

/-- The predicate in use, `props.isInterestingProp || (default)`. -/
def interestingPropOf (props : Props Grip) : Filter :=
  match props.isInterestingProp with
  | some f => f
  | none => defaultIsInterestingProp

/-- A canonical array index: the decimal numeral, without leading zero, of a
number below `2 ^ 32 - 1`. Such names are enumerated first, in numeric order. -/
def arrayIndex? (name : String) : Option Nat :=
  let cs := name.data
  if cs != [] && cs.all Char.isDigit && (cs.head? != some '0' || cs.length == 1) then
    let n := cs.foldl (fun acc c => 10 * acc + (c.toNat - 48)) 0
    if n < 4294967295 then some n else none
  else none

/-- Place of a new name in the enumeration order: array indexes come first in
numeric order, other names follow in insertion order. -/
def insertProperty (o : JSObject) (name : String) (v : JSValue) : JSObject :=
  match arrayIndex? name with
  | none => o ++ [(name, v)]
  | some n =>
    let before := o.takeWhile (fun p =>
      match arrayIndex? p.1 with
      | some m => m < n
      | none => false)
    before ++ (name, v) :: o.drop before.length

/-- The assignment `o[name] = v`: an existing property keeps its place. -/
def setProperty (o : JSObject) (name : String) (v : JSValue) : JSObject :=
  if o.keys.contains name then
    o.map (fun p => if p.1 == name then (name, v) else p)
  else insertProperty o name v

/-- Result of `Object.assign(target, source)`; an `undefined` source is skipped. -/
def objectAssign (target : JSObject) (source : Option JSObject) : JSObject :=
  match source with
  | none => target
  | some s => s.foldl (fun o p => setProperty o p.1 p.2) target

/-- The variable `properties` of `propIterator` after line 105; `none` is `undefined`. -/
def effectiveProperties (object : Grip) : Option JSObject :=
  let properties : Option JSObject :=
    match object.preview with
    | some preview => preview.ownProperties
    | none => some []
  match object.preview with
  | some preview =>
    match preview.safeGetterValues with
    | some safeGetterValues =>
      some (objectAssign (objectAssign [] properties) (some safeGetterValues))
    | none => properties
  | none => properties

/-- The variable `propertiesLength` of `propIterator` after line 105; `none` is a
value that is not a number (`undefined`, or `NaN` after the addition). -/
def effectiveLength (object : Grip) : Option Int :=
  let propertiesLength : Option Int :=
    match object.preview with
    | some preview =>
      match preview.ownPropertiesLength with
      | some n => if n != 0 then some n else object.ownPropertyLength
      | none => object.ownPropertyLength
    | none => object.ownPropertyLength
  match object.preview with
  | some preview =>
    match preview.safeGetterValues with
    | some safeGetterValues =>
      propertiesLength.map (fun n => n + (safeGetterValues.keys.length : Int))
    | none => propertiesLength
  | none => propertiesLength

/-- The comparison `n < propertiesLength`, false when the right side is not a number. -/
def ltLength (n : Nat) (propertiesLength : Option Int) : Bool :=
  match propertiesLength with
  | some l => (n : Int) < l
  | none => false

/-- The array `indexes` of `propIterator` after line 115: the interesting pass,
followed by the uninteresting pass when there are not enough props yet. -/
def selectIndexes (properties : Option JSObject) (propertiesLength : Option Int)
    (max : Int) (isInterestingProp : Filter) : List Nat :=
  let indexes := getPropIndexes properties max isInterestingProp
  if (indexes.length : Int) < max && ltLength indexes.length propertiesLength then
    indexes ++ getPropIndexes properties (max - indexes.length) (negateFilter isInterestingProp)
  else indexes

/-- The constant `truncate` of `propIterator`, `Object.keys(properties).length > max`;
`Object.keys(undefined)` raises a TypeError. -/
def truncateOf (properties : Option JSObject) (max : Int) : Except JSError Bool :=
  match properties with
  | some o => .ok ((o.keys.length : Int) > max)
  | none => .error .typeError

/-! ## Property formatter and object renderer -/

/-- Result of `indexes.sort((a, b) => a - b)`: the indexes in ascending order. -/
def sortIndexes (indexes : List Nat) : List Nat :=
  indexes.insertionSort (fun a b => a ≤ b)

/-- The props that `getProps` builds for the index `i`, lines 154 to 168 of
`grip.js`: the component props overridden by the per-property fields, with
`objectLink` deleted. `length` is `indexes.length`. -/
def propRepProps (componentProps : Props Grip) (properties : Option JSObject)
    (length : Nat) (truncate : Bool) (suppressQuotes : Bool) (i : Nat) :
    Except JSError (Props JSValue) := do
  let o ← match properties with
    | some o => Except.ok o
    | none => Except.error JSError.typeError
  let name : Option String := o.keys[i]?
  let value ← getPropValue (o.get (name.getD "undefined"))
  .ok {
    object := value
    mode := some Mode.TINY
    isInterestingProp := componentProps.isInterestingProp
    title := none
    objectLink := none
    attachedActorIds := componentProps.attachedActorIds
    onDOMNodeMouseOver := componentProps.onDOMNodeMouseOver
    onDOMNodeMouseOut := componentProps.onDOMNodeMouseOut
    onInspectIconClick := componentProps.onInspectIconClick
    name := name.map JSValue.string
    equal := some ": "
    delim := some (if (i : Int) ≠ (length : Int) - 1 || truncate then ", " else "")
    defaultRep := some RepId.Grip
    suppressQuotes := some suppressQuotes }

/-- The `forEach` of `getProps` over the sorted indexes that remain; an exception
in the callback ends the whole call. -/
def getPropsLoop (componentProps : Props Grip) (properties : Option JSObject)
    (length : Nat) (truncate : Bool) (suppressQuotes : Bool) :
    List Nat → Except JSError (List Node)
  | [] => .ok []
  | i :: rest => do
    let p ← propRepProps componentProps properties length truncate suppressQuotes i
    let nodes ← getPropsLoop componentProps properties length truncate suppressQuotes rest
    .ok (Node.propRep p :: nodes)

/-- Embedding of `getProps(componentProps, properties, indexes, truncate, suppressQuotes)`. -/
def getProps (componentProps : Props Grip) (properties : Option JSObject)
    (indexes : List Nat) (truncate : Bool) (suppressQuotes : Bool) :
    Except JSError (List Node) :=
  let sorted := sortIndexes indexes
  getPropsLoop componentProps properties sorted.length truncate suppressQuotes sorted

/-- Result of converting a number to a string in a template literal. -/
def numberToString (n : Option Int) : String :=
  match n with
  | some n => toString n
  | none => "NaN"

/-- The text of the truncation marker, the template `propertiesLength - max` followed
by the word more and an ellipsis. -/
def moreText (propertiesLength : Option Int) (max : Int) : String :=
  numberToString (propertiesLength.map (fun l => l - max)) ++ " more…"

/-- The truncation marker pushed at lines 126 to 128 of `grip.js`. -/
def moreCaption (props : Props Grip) (propertiesLength : Option Int) (max : Int) : Node :=
  Node.caption (Node.safeObjectLink props none (moreText propertiesLength max))

/-- Embedding of `propIterator(props, object, max)`. -/
def propIterator (props : Props Grip) (object : Grip) (max : Int) :
    Except JSError (List Node) :=
  match object.preview.bind (fun preview => preview.wrappedValue) with
  | some wrappedValue =>
    .ok [Node.rep {
      object := wrappedValue
      mode := some (props.mode.getD Mode.TINY)
      defaultRep := some RepId.Grip }]
  | none => do
    let isInterestingProp := interestingPropOf props
    let properties := effectiveProperties object
    let propertiesLength := effectiveLength object
    let indexes := selectIndexes properties propertiesLength max isInterestingProp
    let truncate ← truncateOf properties max
    let suppressQuotes := object.class_ == some "Proxy"
    let propsArray ← getProps props properties indexes truncate suppressQuotes
    if truncate then
      .ok (propsArray ++ [moreCaption props propertiesLength max])
    else
      .ok propsArray

/-- Embedding of `safePropIterator(props, object, max)`; `max` is `none` when the
argument is `undefined`. -/
def safePropIterator (props : Props Grip) (object : Grip) (max : Option Int) :
    List Node :=
  let max := max.getD 3
  match propIterator props object max with
  | .ok propsArray => propsArray
  | .error _ => []

/-- The string `props.title || object.class || "Object"`. -/
def titleOf (props : Props Grip) (object : Grip) : String :=
  match props.title with
  | some t => if t != "" then t else
    match object.class_ with
    | some c => if c != "" then c else "Object"
    | none => "Object"
  | none =>
    match object.class_ with
    | some c => if c != "" then c else "Object"
    | none => "Object"

/-- Embedding of `getTitle(props, object)`. -/
def getTitle (props : Props Grip) (object : Grip) : Node :=
  Node.safeObjectLink props none (titleOf props object)

/-- The third argument of the call at lines 35 and 36 of `grip.js`,
`(props.mode === MODE.LONG) ? 10 : 3`. -/
def maxOfMode (mode : Option Mode) : Int :=
  if mode = some Mode.LONG then 10 else 3

/-- Embedding of `GripRep(props)`. -/
def GripRep (props : Props Grip) : Node :=
  let object := props.object
  let propsArray := safePropIterator props object (some (maxOfMode props.mode))
  if props.mode = some Mode.TINY then
    Node.span (some "objectBox objectBox-object") [getTitle props object]
  else
    Node.span (some "objectBox objectBox-object")
      ([getTitle props object,
        Node.safeObjectLink props (some "objectLeftBrace") " \x7b "] ++
       propsArray ++
       [Node.safeObjectLink props (some "objectRightBrace") " \x7d"])

/-- A string child of a `span`; an `undefined` child renders nothing. -/
def textChild (s : Option String) : List Node :=
  match s with
  | some s => [Node.text s]
  | none => []

/-- Embedding of the `render` method of `PropRep`, on `this.props`. The literal
`"tiny"` of line 39 is the mode `TINY`. -/
def PropRep.render (props : Props JSValue) : Node :=
  let key :=
    match props.name with
    | some (JSValue.string name) => Node.span (some "nodeName") [Node.text name]
    | name =>
      Node.rep {
        object := name.getD JSValue.undefined
        mode := some (props.mode.getD Mode.TINY)
        defaultRep := some RepId.Grip
        objectLink := props.objectLink }
  Node.span none
    [key,
     Node.span (some "objectEqual") (textChild props.equal),
     Node.rep props,
     Node.span (some "objectComma") (textChild props.delim)]

/-! ## Auxiliary definitions for the statements -/

/-- Indexes, counted from `i`, of the names that the filter accepts, up to the
first name whose classification raises an exception. -/
def acceptedIndexes (properties : JSObject) (filter : Filter) : List String → Nat → List Nat
  | [], _ => []
  | name :: rest, i =>
    match classify properties filter name with
    | .error _ => []
    | .ok true => i :: acceptedIndexes properties filter rest (i + 1)
    | .ok false => acceptedIndexes properties filter rest (i + 1)

/-- The props of a `PropRep` element; `none` for any other node. -/
def Node.propRepProps? : Node → Option (Props JSValue)
  | .propRep p => some p
  | _ => none

/-- Whether a node is a `PropRep` element. -/
def Node.isPropRep (n : Node) : Bool :=
  n.propRepProps?.isSome

/-- Whether a node is a `Caption` element. -/
def Node.isCaption : Node → Bool
  | .caption _ => true
  | _ => false

/-- Children of a `span`; no child for any other node. -/
def Node.children : Node → List Node
  | .span _ children => children
  | _ => []

/-- The name of the property a `PropRep` element shows, when it is a string. -/
def Node.propName? : Node → Option String
  | .propRep p =>
    match p.name with
    | some (JSValue.string name) => some name
    | _ => none
  | _ => none

/-- The delimiter of a `PropRep` element. -/
def Node.propDelim? (n : Node) : Option String :=
  n.propRepProps?.bind (fun p => p.delim)

/-- The mode handed to the dispatcher by a `Rep` call. -/
def Node.repMode? : Node → Option Mode
  | .rep p => p.mode
  | _ => none

/-- The text of a truncation marker. -/
def Node.captionText? : Node → Option String
  | .caption (.safeObjectLink _ _ content) => some content
  | _ => none

/-! ## Example grips -/

/-- A property descriptor with a `value` field. -/
def valueDescriptor (v : JSValue) : JSValue :=
  JSValue.object [("value", v)]

/-- A property descriptor with a `getterValue` field. -/
def getterDescriptor (v : JSValue) : JSValue :=
  JSValue.object [("getterValue", v)]

/-- The example grip of the input shape: `a: 1`, `b: ""`, `c: "hi"`. -/
def exampleGripAbc : Grip :=
  { class_ := some "Object"
    preview := some
      { ownProperties := some
          [("a", valueDescriptor (.number 1)), ("b", valueDescriptor (.string "")),
           ("c", valueDescriptor (.string "hi"))]
        ownPropertiesLength := some 3 } }

/-- The example grip with four own properties `0` to `3`. -/
def exampleGripArray : Grip :=
  { class_ := some "Array"
    preview := some
      { ownProperties := some
          [("0", valueDescriptor (.number 1)), ("1", valueDescriptor (.number 2)),
           ("2", valueDescriptor (.number 3)), ("3", valueDescriptor (.number 4))]
        ownPropertiesLength := some 4 } }

/-- A grip whose preview holds one of its ten own properties. -/
def exampleGripShortPreview : Grip :=
  { class_ := some "Object"
    preview := some
      { ownProperties := some [("a", valueDescriptor (.number 1))]
        ownPropertiesLength := some 10 } }

/-- A grip without own properties and with three safe getters, `x` returning the
empty string, `y` returning 5 and `z` returning 6. -/
def exampleGripGetters : Grip :=
  { class_ := some "Object"
    preview := some
      { ownProperties := some []
        ownPropertiesLength := some 0
        safeGetterValues := some
          [("x", getterDescriptor (.string "")), ("y", getterDescriptor (.number 5)),
           ("z", getterDescriptor (.number 6))] } }

/-- A grip whose second property descriptor is `null`. -/
def exampleGripNullDescriptor : Grip :=
  { class_ := some "Object"
    preview := some
      { ownProperties := some [("a", valueDescriptor (.number 1)), ("b", .null)]
        ownPropertiesLength := some 2 } }

/-- A grip whose preview wraps the number 1. -/
def exampleGripWrapped : Grip :=
  { class_ := some "Object"
    preview := some { wrappedValue := some (.number 1) } }

/-- The props of the `PropRep` element that shows the property `a` of
`exampleGripAbc`, followed by another property. -/
def examplePropRepA : Props JSValue :=
  { object := .number 1
    mode := some Mode.TINY
    name := some (.string "a")
    equal := some ": "
    delim := some ", "
    defaultRep := some RepId.Grip
    suppressQuotes := some false }

/-- Embedding of `supportsObject(object, type)`, with the JavaScript value it
returns. `isGrip`, of `rep-utils.js`, is not among the sources: it is a
parameter, the boolean being the truthiness of what it returns. -/
def supportsObject (isGrip : Grip → Bool) (object : Grip) : JSValue :=
  if !isGrip object then JSValue.boolean false
  else
    match object.preview with
    | none => JSValue.undefined
    | some preview =>
      match preview.ownProperties with
      | some ownProperties => JSValue.object ownProperties
      | none => JSValue.undefined

/-- A grip whose preview has an empty `ownProperties`. -/
def exampleGripEmpty : Grip :=
  { class_ := some "Object"
    preview := some { ownProperties := some [], ownPropertiesLength := some 0 } }

/-- A grip whose preview has no `ownPropertiesLength`, with `ownPropertyLength` 7. -/
def exampleGripFallback : Grip :=
  { class_ := some "Object"
    preview := some { ownProperties := some [("a", valueDescriptor (.number 1))] }
    ownPropertyLength := some 7 }

/-- The example grip with no own property and the safe getter `x` returning 5. -/
def exampleGripGetterX : Grip :=
  { class_ := some "Object"
    preview := some
      { ownProperties := some []
        safeGetterValues := some [("x", getterDescriptor (.number 5))] } }

/-- A grip with one own property, `ownPropertiesLength` 1 and the safe getter `x`. -/
def exampleGripOwnAndGetter : Grip :=
  { class_ := some "Object"
    preview := some
      { ownProperties := some [("a", valueDescriptor (.number 1))]
        ownPropertiesLength := some 1
        safeGetterValues := some [("x", getterDescriptor (.number 5))] } }

/-- Whether the entry at position `i` of the mapping, in enumeration order, is one
whose resolved value, lower-cased type and name satisfy the filter. -/
def acceptsAt (properties : JSObject) (filter : Filter) (i : Nat) : Bool :=
  match properties.keys[i]? with
  | none => false
  | some name =>
    match getPropValue (properties.get name) with
    | .error _ => false
    | .ok value =>
      match typeOfValue value with
      | .error _ => false
      | .ok type =>
        match filter type value name with
        | .ok b => b
        | .error _ => false

/-- Whether the name `a` may stand before the name `b` in the enumeration order of
one object: the names differ and, when `b` is an array index, `a` is a smaller
array index. -/
def precedes (a b : String) : Bool :=
  a != b &&
    match arrayIndex? b with
    | none => true
    | some n =>
      match arrayIndex? a with
      | some m => m < n
      | none => false

/-- A grip whose own property `a` is also the name of a safe getter. -/
def exampleGripSharedName : Grip :=
  { class_ := some "Object"
    preview := some
      { ownProperties := some [("a", valueDescriptor (.number 1))]
        ownPropertiesLength := some 1
        safeGetterValues := some [("a", getterDescriptor (.number 2))] } }

/-- A grip with the own property `b` and a safe getter named `0`. -/
def exampleGripIndexGetter : Grip :=
  { class_ := some "Object"
    preview := some
      { ownProperties := some [("b", valueDescriptor (.number 1))]
        ownPropertiesLength := some 1
        safeGetterValues := some [("0", getterDescriptor (.number 2))] } }

/-- Component props with a title, a mode and an `objectLink` on the example grip
`a: 1`, `b: ""`, `c: "hi"`. -/
def examplePropsWithLink : Props Grip :=
  { object := exampleGripAbc
    mode := some Mode.LONG
    title := some "Title"
    objectLink := some 7
    onInspectIconClick := some 9 }

/-- The mapping `a: 1`, `b: ""`, `c: "hi"` of the example grip. -/
def exampleMappingAbc : JSObject :=
  [("a", valueDescriptor (.number 1)), ("b", valueDescriptor (.string "")),
   ("c", valueDescriptor (.string "hi"))]

/-- The type of a value in the words of the specification: the `class` field of
the value if present, otherwise its primitive type, lower-cased. A `class` that is
absent or falsy is not present; `undefined`, `null` and a value whose `class` is
present without being a string have no type. -/
def claimedType : JSValue → Option String
  | .undefined => none
  | .null => none
  | .boolean _ => some "boolean"
  | .number _ => some "number"
  | .string _ => some "string"
  | .object fields =>
    match JSObject.get fields "class" with
    | .string c => if c = "" then some "object" else some c.toLower
    | c => if c.truthy then none else some "object"

/-- A mapping whose values are typed by their `class` field: a `Number` object, a
plain `Object`, a `String` object of length 0, and an object whose class is
written `BOOLEAN`. -/
def exampleMappingTyped : JSObject :=
  [("n", valueDescriptor (.object [("class", .string "Number")])),
   ("o", valueDescriptor (.object [("class", .string "Object")])),
   ("s", valueDescriptor (.object [("class", .string "String"), ("length", .number 0)])),
   ("t", valueDescriptor (.object [("class", .string "BOOLEAN")]))]

/-! ## Lemmas on the selection loop -/

theorem getPropIndexesLoop_eq (properties : JSObject) (max : Int) (filter : Filter)
    (names : List String) (i : Nat) (indexes : List Nat) :
    getPropIndexesLoop properties max filter names i indexes =
      indexes ++ (acceptedIndexes properties filter names i).take
        (max - (indexes.length : Int)).toNat := by
  induction names generalizing i indexes with
  | nil => simp [getPropIndexesLoop, acceptedIndexes]
  | cons name rest ih =>
    unfold getPropIndexesLoop
    by_cases hmax : (indexes.length : Int) ≥ max
    · have h0 : (max - (indexes.length : Int)).toNat = 0 := by omega
      simp [hmax, h0]
    · have hpos : (max - (indexes.length : Int)).toNat =
          (max - ((indexes.length : Int) + 1)).toNat + 1 := by omega
      rw [if_neg hmax]
      unfold acceptedIndexes
      cases hc : classify properties filter name with
      | error e => simp
      | ok b =>
        cases b with
        | true =>
          simp only [ih, List.length_append, List.length_singleton, Nat.cast_add,
            Nat.cast_one, hpos, List.take_succ_cons, List.append_assoc,
            List.singleton_append]
        | false =>
          simp only [ih]

theorem getPropIndexes_some (o : JSObject) (max : Int) (filter : Filter) :
    getPropIndexes (some o) max filter =
      (acceptedIndexes o filter o.keys 0).take max.toNat := by
  simp [getPropIndexes, getPropIndexesLoop_eq]

theorem classify_negateFilter (properties : JSObject) (filter : Filter) (name : String) :
    classify properties (negateFilter filter) name =
      match classify properties filter name with
      | .ok b => .ok (!b)
      | .error e => .error e := by
  simp only [classify, bind, Except.bind]
  cases getPropValue (properties.get name) with
  | error e => rfl
  | ok value =>
    simp only []
    cases typeOfValue value with
    | error e => rfl
    | ok type =>
      simp only [negateFilter]

theorem acceptedIndexes_mem (properties : JSObject) (filter : Filter)
    (names : List String) (i j : Nat)
    (h : j ∈ acceptedIndexes properties filter names i) :
    i ≤ j ∧ ∃ name, names[j - i]? = some name ∧
      classify properties filter name = .ok true := by
  induction names generalizing i with
  | nil => simp [acceptedIndexes] at h
  | cons name rest ih =>
    unfold acceptedIndexes at h
    cases hc : classify properties filter name with
    | error e => simp [hc] at h
    | ok b =>
      cases b with
      | true =>
        simp only [hc, List.mem_cons] at h
        rcases h with h | h
        · subst h
          exact ⟨le_refl _, name, by simp, hc⟩
        · obtain ⟨hle, nm, hnm, hcl⟩ := ih (i + 1) h
          refine ⟨by omega, nm, ?_, hcl⟩
          have hji : j - i = (j - (i + 1)) + 1 := by omega
          rw [hji, List.getElem?_cons_succ]
          exact hnm
      | false =>
        simp only [hc] at h
        obtain ⟨hle, nm, hnm, hcl⟩ := ih (i + 1) h
        refine ⟨by omega, nm, ?_, hcl⟩
        have hji : j - i = (j - (i + 1)) + 1 := by omega
        rw [hji, List.getElem?_cons_succ]
        exact hnm

theorem acceptedIndexes_sorted (properties : JSObject) (filter : Filter)
    (names : List String) (i : Nat) :
    List.Sorted (fun a b => a < b) (acceptedIndexes properties filter names i) := by
  induction names generalizing i with
  | nil => simp [acceptedIndexes]
  | cons name rest ih =>
    unfold acceptedIndexes
    cases hc : classify properties filter name with
    | error e => simp
    | ok b =>
      cases b with
      | true =>
        simp only [List.sorted_cons]
        refine ⟨?_, ih (i + 1)⟩
        intro j hj
        have := (acceptedIndexes_mem properties filter rest (i + 1) j hj).1
        omega
      | false => exact ih (i + 1)

theorem acceptedIndexes_disjoint (properties : JSObject) (filter : Filter)
    (names : List String) (i j : Nat)
    (h : j ∈ acceptedIndexes properties filter names i) :
    j ∉ acceptedIndexes properties (negateFilter filter) names i := by
  intro h2
  obtain ⟨_, nm, hnm, hcl⟩ := acceptedIndexes_mem properties filter names i j h
  obtain ⟨_, nm2, hnm2, hcl2⟩ :=
    acceptedIndexes_mem properties (negateFilter filter) names i j h2
  rw [hnm] at hnm2
  cases hnm2
  rw [classify_negateFilter, hcl] at hcl2
  cases hcl2

theorem acceptedIndexes_lt (properties : JSObject) (filter : Filter)
    (names : List String) (i j : Nat)
    (h : j ∈ acceptedIndexes properties filter names i) :
    j < i + names.length := by
  obtain ⟨hle, nm, hnm, _⟩ := acceptedIndexes_mem properties filter names i j h
  have := List.getElem?_eq_some_iff.mp hnm
  obtain ⟨hlt, _⟩ := this
  omega

/-! ## Lemmas on the two passes -/

theorem selectIndexes_none (propertiesLength : Option Int) (max : Int) (filter : Filter) :
    selectIndexes none propertiesLength max filter = [] := by
  unfold selectIndexes
  simp [getPropIndexes]

theorem selectIndexes_shape (o : JSObject) (propertiesLength : Option Int) (max : Int)
    (filter : Filter) :
    ∃ b : Nat, selectIndexes (some o) propertiesLength max filter =
      (acceptedIndexes o filter o.keys 0).take max.toNat ++
        (acceptedIndexes o (negateFilter filter) o.keys 0).take b := by
  unfold selectIndexes
  simp only [getPropIndexes_some]
  split
  · exact ⟨_, rfl⟩
  · exact ⟨0, by simp⟩

theorem selectIndexes_length_le (properties : Option JSObject)
    (propertiesLength : Option Int) (max : Int) (filter : Filter) (hmax : 0 ≤ max) :
    ((selectIndexes properties propertiesLength max filter).length : Int) ≤ max := by
  cases properties with
  | none => simpa [selectIndexes_none] using hmax
  | some o =>
    unfold selectIndexes
    simp only [getPropIndexes_some]
    split
    · rename_i h
      simp only [Bool.and_eq_true, decide_eq_true_eq] at h
      have h1 := h.1
      simp only [List.length_append, List.length_take, Nat.cast_add] at h1 ⊢
      omega
    · simp only [List.length_take]
      omega

theorem selectIndexes_nodup (properties : Option JSObject)
    (propertiesLength : Option Int) (max : Int) (filter : Filter) :
    (selectIndexes properties propertiesLength max filter).Nodup := by
  cases properties with
  | none => simp [selectIndexes_none]
  | some o =>
    obtain ⟨b, hb⟩ := selectIndexes_shape o propertiesLength max filter
    rw [hb, List.nodup_append]
    refine ⟨?_, ?_, ?_⟩
    · exact ((acceptedIndexes_sorted o filter o.keys 0).nodup).sublist (List.take_sublist _ _)
    · exact ((acceptedIndexes_sorted o (negateFilter filter) o.keys 0).nodup).sublist
        (List.take_sublist _ _)
    · intro j h1 h2
      exact acceptedIndexes_disjoint o filter o.keys 0 j (List.mem_of_mem_take h1)
        (List.mem_of_mem_take h2)

theorem selectIndexes_mem (o : JSObject) (propertiesLength : Option Int) (max : Int)
    (filter : Filter) (j : Nat)
    (h : j ∈ selectIndexes (some o) propertiesLength max filter) :
    ∃ name, o.keys[j]? = some name ∧ ∃ b, classify o filter name = .ok b := by
  obtain ⟨b, hb⟩ := selectIndexes_shape o propertiesLength max filter
  rw [hb, List.mem_append] at h
  rcases h with h | h
  · obtain ⟨_, nm, hnm, hcl⟩ :=
      acceptedIndexes_mem o filter o.keys 0 j (List.mem_of_mem_take h)
    exact ⟨nm, by simpa using hnm, true, hcl⟩
  · obtain ⟨_, nm, hnm, hcl⟩ :=
      acceptedIndexes_mem o (negateFilter filter) o.keys 0 j (List.mem_of_mem_take h)
    rw [classify_negateFilter] at hcl
    refine ⟨nm, by simpa using hnm, ?_⟩
    cases hc : classify o filter nm with
    | error e => simp [hc] at hcl
    | ok b => exact ⟨b, rfl⟩

theorem sortIndexes_sorted_lt (indexes : List Nat) (h : indexes.Nodup) :
    List.Sorted (fun a b => a < b) (sortIndexes indexes) := by
  have hs : List.Sorted (fun a b : Nat => a ≤ b) (sortIndexes indexes) :=
    List.sorted_insertionSort _ indexes
  have hn : (sortIndexes indexes).Nodup :=
    (List.perm_insertionSort _ indexes).nodup_iff.mpr h
  exact hs.lt_of_le hn

/-! ## Lemmas on the property formatter -/

theorem classify_ok_getPropValue (o : JSObject) (filter : Filter) (name : String) (b : Bool)
    (h : classify o filter name = .ok b) :
    ∃ v, getPropValue (o.get name) = .ok v := by
  simp only [classify, bind, Except.bind] at h
  cases hv : getPropValue (o.get name) with
  | error e => simp [hv] at h
  | ok v => exact ⟨v, rfl⟩

theorem propRepProps_ok (componentProps : Props Grip) (o : JSObject) (length : Nat)
    (truncate suppressQuotes : Bool) (i : Nat) (name : String) (v : JSValue)
    (hname : o.keys[i]? = some name) (hv : getPropValue (o.get name) = .ok v) :
    ∃ p, propRepProps componentProps (some o) length truncate suppressQuotes i = .ok p ∧
      p.object = v ∧ p.name = some (JSValue.string name) ∧ p.mode = some Mode.TINY ∧
      p.title = none ∧ p.objectLink = none ∧
      p.delim = some (if (i : Int) ≠ (length : Int) - 1 || truncate then ", " else "") := by
  simp only [propRepProps, bind, Except.bind, hname, Option.getD_some, hv]
  exact ⟨_, rfl, rfl, rfl, rfl, rfl, rfl, rfl⟩

theorem getPropsLoop_ok (componentProps : Props Grip) (o : JSObject) (length : Nat)
    (truncate suppressQuotes : Bool) (l : List Nat)
    (h : ∀ i ∈ l, ∃ name, o.keys[i]? = some name ∧
      ∃ v, getPropValue (o.get name) = .ok v) :
    ∃ ps : List (Props JSValue),
      getPropsLoop componentProps (some o) length truncate suppressQuotes l =
        .ok (ps.map Node.propRep) ∧
      List.Forall₂ (fun i p =>
        propRepProps componentProps (some o) length truncate suppressQuotes i = .ok p) l ps := by
  induction l with
  | nil => exact ⟨[], rfl, List.Forall₂.nil⟩
  | cons i rest ih =>
    obtain ⟨name, hname, v, hv⟩ := h i (List.mem_cons_self _ _)
    obtain ⟨p, hp, _⟩ :=
      propRepProps_ok componentProps o length truncate suppressQuotes i name v hname hv
    obtain ⟨ps, hps, hall⟩ := ih (fun j hj => h j (List.mem_cons_of_mem _ hj))
    refine ⟨p :: ps, ?_, List.Forall₂.cons hp hall⟩
    simp only [getPropsLoop, bind, Except.bind, hp, hps, List.map_cons]

theorem getProps_selectIndexes_ok (componentProps : Props Grip) (o : JSObject)
    (propertiesLength : Option Int) (max : Int) (filter : Filter)
    (truncate suppressQuotes : Bool) :
    ∃ ps : List (Props JSValue),
      getProps componentProps (some o) (selectIndexes (some o) propertiesLength max filter)
        truncate suppressQuotes = .ok (ps.map Node.propRep) ∧
      List.Forall₂ (fun i p =>
        propRepProps componentProps (some o)
          (sortIndexes (selectIndexes (some o) propertiesLength max filter)).length
          truncate suppressQuotes i = .ok p)
        (sortIndexes (selectIndexes (some o) propertiesLength max filter)) ps := by
  unfold getProps
  apply getPropsLoop_ok
  intro i hi
  have hi2 : i ∈ selectIndexes (some o) propertiesLength max filter :=
    (List.perm_insertionSort _ _).mem_iff.mp hi
  obtain ⟨name, hname, b, hb⟩ := selectIndexes_mem o propertiesLength max filter i hi2
  exact ⟨name, hname, classify_ok_getPropValue o filter name b hb⟩

/-- Shape of the result of `propIterator` on a grip without `wrappedValue` whose
`properties` is defined: one `PropRep` element per sorted selected index, then the
truncation marker when `truncate` holds. -/
theorem propIterator_some (props : Props Grip) (object : Grip) (max : Int) (o : JSObject)
    (hw : object.preview.bind (fun preview => preview.wrappedValue) = none)
    (ho : effectiveProperties object = some o) :
    ∃ ps : List (Props JSValue),
      propIterator props object max =
        .ok (ps.map Node.propRep ++
          (if (o.keys.length : Int) > max then
            [moreCaption props (effectiveLength object) max] else [])) ∧
      List.Forall₂ (fun i p =>
        propRepProps props (some o)
          (sortIndexes (selectIndexes (some o) (effectiveLength object) max
            (interestingPropOf props))).length
          (decide ((o.keys.length : Int) > max)) (object.class_ == some "Proxy") i = .ok p)
        (sortIndexes (selectIndexes (some o) (effectiveLength object) max
          (interestingPropOf props))) ps := by
  obtain ⟨ps, hps, hall⟩ := getProps_selectIndexes_ok props o (effectiveLength object) max
    (interestingPropOf props) (decide ((o.keys.length : Int) > max))
    (object.class_ == some "Proxy")
  refine ⟨ps, ?_, hall⟩
  unfold propIterator
  simp only [hw, ho, truncateOf, bind, Except.bind, hps]
  by_cases ht : (o.keys.length : Int) > max
  · simp [ht]
  · simp [ht]

theorem propIterator_none (props : Props Grip) (object : Grip) (max : Int)
    (hw : object.preview.bind (fun preview => preview.wrappedValue) = none)
    (ho : effectiveProperties object = none) :
    propIterator props object max = .error JSError.typeError := by
  unfold propIterator
  simp only [hw, ho, truncateOf, bind, Except.bind]

theorem propRepProps_inv (componentProps : Props Grip) (o : JSObject) (length : Nat)
    (truncate suppressQuotes : Bool) (i : Nat) (p : Props JSValue)
    (h : propRepProps componentProps (some o) length truncate suppressQuotes i = .ok p) :
    p.name = (o.keys[i]?).map JSValue.string ∧ p.mode = some Mode.TINY ∧
      p.title = none ∧ p.objectLink = none ∧
      p.delim = some (if (i : Int) ≠ (length : Int) - 1 || truncate then ", " else "") := by
  simp only [propRepProps, bind, Except.bind] at h
  cases hv : getPropValue (o.get ((o.keys[i]?).getD "undefined")) with
  | error e => simp [hv] at h
  | ok v =>
    simp only [hv, Except.ok.injEq] at h
    subst h
    exact ⟨rfl, rfl, rfl, rfl, rfl⟩

theorem forall2_propRepProps_names (componentProps : Props Grip) (o : JSObject)
    (length : Nat) (truncate suppressQuotes : Bool) (l : List Nat)
    (ps : List (Props JSValue))
    (h : List.Forall₂ (fun i p =>
      propRepProps componentProps (some o) length truncate suppressQuotes i = .ok p) l ps) :
    ps.map (fun p => p.name) = l.map (fun i => (o.keys[i]?).map JSValue.string) := by
  induction h with
  | nil => rfl
  | cons hp _ ih =>
    simp only [List.map_cons, ih,
      (propRepProps_inv componentProps o length truncate suppressQuotes _ _ hp).1]

theorem filter_isPropRep_map (ps : List (Props JSValue)) :
    (ps.map Node.propRep).filter Node.isPropRep = ps.map Node.propRep := by
  induction ps with
  | nil => rfl
  | cons p ps ih => simp [List.filter_cons, Node.isPropRep, Node.propRepProps?, ih]

theorem maxOfMode_nonneg (mode : Option Mode) : 0 ≤ maxOfMode mode := by
  unfold maxOfMode
  split <;> decide

theorem acceptedIndexes_perm (o : JSObject) (filter : Filter) (names : List String)
    (i : Nat) (h : ∀ name ∈ names, (classify o filter name).toBool = true) :
    (acceptedIndexes o filter names i ++
      acceptedIndexes o (negateFilter filter) names i).Perm
      (List.range' i names.length) := by
  induction names generalizing i with
  | nil => simp [acceptedIndexes]
  | cons name rest ih =>
    have hrest := ih (i + 1) (fun nm hnm => h nm (List.mem_cons_of_mem _ hnm))
    have hname := h name (List.mem_cons_self _ _)
    unfold acceptedIndexes
    rw [classify_negateFilter]
    cases hc : classify o filter name with
    | error e => simp [hc, Except.toBool] at hname
    | ok b =>
      cases b with
      | true =>
        simp only [Bool.not_true, List.cons_append, List.length_cons, List.range'_succ]
        exact List.Perm.cons _ hrest
      | false =>
        simp only [Bool.not_false, List.length_cons, List.range'_succ]
        exact List.perm_middle.trans (List.Perm.cons _ hrest)

theorem selectIndexes_all (o : JSObject) (len max : Int) (filter : Filter)
    (hn : (o.keys.length : Int) ≤ max) (hlen : (o.keys.length : Int) ≤ len)
    (h : ∀ name ∈ o.keys, (classify o filter name).toBool = true) :
    selectIndexes (some o) (some len) max filter =
      acceptedIndexes o filter o.keys 0 ++
        acceptedIndexes o (negateFilter filter) o.keys 0 := by
  have hperm := acceptedIndexes_perm o filter o.keys 0 h
  have hsum := hperm.length_eq
  simp only [List.length_append, List.length_range'] at hsum
  unfold selectIndexes
  simp only [getPropIndexes_some]
  have h1 : (acceptedIndexes o filter o.keys 0).take max.toNat =
      acceptedIndexes o filter o.keys 0 :=
    List.take_of_length_le (by omega)
  rw [h1]
  split
  · rw [List.take_of_length_le (by omega)]
  · rename_i hcond
    simp only [ltLength, Bool.and_eq_true, decide_eq_true_eq, not_and, not_lt] at hcond
    have hzero : (acceptedIndexes o (negateFilter filter) o.keys 0).length = 0 := by
      by_cases hlt : ((acceptedIndexes o filter o.keys 0).length : Int) < max
      · have := hcond hlt
        omega
      · omega
    rw [List.length_eq_zero.mp hzero, List.append_nil]

theorem sortIndexes_eq_range (indexes : List Nat) (n : Nat)
    (h : indexes.Perm (List.range n)) : sortIndexes indexes = List.range n := by
  have hs : List.Sorted (fun a b : Nat => a ≤ b) (sortIndexes indexes) :=
    List.sorted_insertionSort _ indexes
  have hr : List.Sorted (fun a b : Nat => a ≤ b) (List.range n) :=
    (List.sorted_lt_range n).le_of_lt
  exact List.eq_of_perm_of_sorted ((List.perm_insertionSort _ indexes).trans h) hs hr

theorem map_getElem?_range (keys : List String) :
    (List.range keys.length).map (fun i => (keys[i]?).map JSValue.string) =
      keys.map (fun k => some (JSValue.string k)) := by
  apply List.ext_getElem?
  intro i
  by_cases hi : i < keys.length
  · simp [List.getElem?_map, List.getElem?_range, hi, List.getElem?_eq_getElem]
  · have h1 : (List.range keys.length)[i]? = none := by
      simp [List.getElem?_eq_none_iff] ; omega
    have h2 : keys[i]? = none := by
      simp [List.getElem?_eq_none_iff] ; omega
    simp [List.getElem?_map, h1, h2]

theorem classify_negateFilter_toBool (o : JSObject) (filter : Filter) (name : String) :
    (classify o (negateFilter filter) name).toBool = (classify o filter name).toBool := by
  rw [classify_negateFilter]
  cases classify o filter name <;> rfl

theorem acceptedIndexes_lt_of_error (o : JSObject) (filter : Filter) (names : List String)
    (i k : Nat) (name : String) (hk : names[k]? = some name)
    (herr : (classify o filter name).toBool = false) :
    ∀ j ∈ acceptedIndexes o filter names i, j < i + k := by
  induction names generalizing i k with
  | nil => simp at hk
  | cons nm rest ih =>
    intro j hj
    unfold acceptedIndexes at hj
    cases k with
    | zero =>
      simp only [List.getElem?_cons_zero, Option.some.injEq] at hk
      subst hk
      cases hc : classify o filter nm with
      | error e => simp [hc] at hj
      | ok b => simp [hc, Except.toBool] at herr
    | succ k =>
      simp only [List.getElem?_cons_succ] at hk
      have hrest := ih (i + 1) k hk
      cases hc : classify o filter nm with
      | error e => simp [hc] at hj
      | ok b =>
        cases b with
        | true =>
          simp only [hc, List.mem_cons] at hj
          rcases hj with hj | hj
          · omega
          · have := hrest j hj
            omega
        | false =>
          simp only [hc] at hj
          have := hrest j hj
          omega

theorem selectIndexes_lt_of_error (o : JSObject) (propertiesLength : Option Int)
    (max : Int) (filter : Filter) (k : Nat) (name : String) (hk : o.keys[k]? = some name)
    (herr : (classify o filter name).toBool = false) :
    ∀ j ∈ selectIndexes (some o) propertiesLength max filter, j < k := by
  intro j hj
  obtain ⟨b, hb⟩ := selectIndexes_shape o propertiesLength max filter
  rw [hb, List.mem_append] at hj
  rcases hj with hj | hj
  · have := acceptedIndexes_lt_of_error o filter o.keys 0 k name hk herr j
      (List.mem_of_mem_take hj)
    omega
  · have := acceptedIndexes_lt_of_error o (negateFilter filter) o.keys 0 k name hk
      (by rw [classify_negateFilter_toBool]; exact herr) j (List.mem_of_mem_take hj)
    omega

theorem forall2_mem_right {α β : Type} (r : α → β → Prop) (l : List α) (ps : List β)
    (h : List.Forall₂ r l ps) : ∀ p ∈ ps, ∃ i ∈ l, r i p := by
  induction h with
  | nil => intro p hp; simp at hp
  | cons hr _ ih =>
    intro p hp
    rcases List.mem_cons.mp hp with hp | hp
    · subst hp
      exact ⟨_, List.mem_cons_self _ _, hr⟩
    · obtain ⟨i, hi, hri⟩ := ih p hp
      exact ⟨i, List.mem_cons_of_mem _ hi, hri⟩

theorem propRepProps_equal (componentProps : Props Grip) (o : JSObject) (length : Nat)
    (truncate suppressQuotes : Bool) (i : Nat) (p : Props JSValue)
    (h : propRepProps componentProps (some o) length truncate suppressQuotes i = .ok p) :
    p.equal = some ": " ∧ p.defaultRep = some RepId.Grip := by
  simp only [propRepProps, bind, Except.bind] at h
  cases hv : getPropValue (o.get ((o.keys[i]?).getD "undefined")) with
  | error e => simp [hv] at h
  | ok v =>
    simp only [hv, Except.ok.injEq] at h
    subst h
    exact ⟨rfl, rfl⟩

theorem PropRep.render_of_string_name (p : Props JSValue) (name : String)
    (hname : p.name = some (JSValue.string name)) :
    PropRep.render p =
      Node.span none
        [Node.span (some "nodeName") [Node.text name],
         Node.span (some "objectEqual") (textChild p.equal),
         Node.rep p,
         Node.span (some "objectComma") (textChild p.delim)] := by
  unfold PropRep.render
  simp only [hname]

/-! ## The claims -/

/-- C1: the index list that `propIterator` builds from its two `getPropIndexes`
passes has at most `max` elements, where `max` is 10 in `LONG` mode and 3 in
every other mode, and `GripRep` shows at most that many properties. -/
theorem selected_index_count_le_max (props : Props Grip) (object : Grip) :
    maxOfMode props.mode = (if props.mode = some Mode.LONG then 10 else 3) ∧
    ((selectIndexes (effectiveProperties object) (effectiveLength object)
        (maxOfMode props.mode) (interestingPropOf props)).length : Int) ≤
      maxOfMode props.mode ∧
    (((GripRep props).children.filter Node.isPropRep).length : Int) ≤
      maxOfMode props.mode := by
  refine ⟨rfl, selectIndexes_length_le _ _ _ _ (maxOfMode_nonneg _), ?_⟩
  have hmax := maxOfMode_nonneg props.mode
  unfold GripRep
  by_cases hm : props.mode = some Mode.TINY
  · simpa [hm, Node.children, getTitle, Node.isPropRep, Node.propRepProps?] using hmax
  · simp only [hm, if_false, Node.children, safePropIterator, Option.getD_some]
    cases hw : props.object.preview.bind (fun preview => preview.wrappedValue) with
    | some w =>
      simp only [propIterator, hw]
      simpa [getTitle, Node.isPropRep, Node.propRepProps?] using hmax
    | none =>
      cases ho : effectiveProperties props.object with
      | none =>
        rw [propIterator_none props props.object _ hw ho]
        simpa [getTitle, Node.isPropRep, Node.propRepProps?] using hmax
      | some o =>
        obtain ⟨ps, hps, hall⟩ := propIterator_some props props.object (maxOfMode props.mode) o hw ho
        rw [hps]
        have hlen : ps.length = (selectIndexes (some o) (effectiveLength props.object)
            (maxOfMode props.mode) (interestingPropOf props)).length := by
          rw [← hall.length_eq]
          exact List.length_insertionSort _ _
        have hle := selectIndexes_length_le (some o) (effectiveLength props.object)
          (maxOfMode props.mode) (interestingPropOf props) hmax
        have hfilter : (List.filter Node.isPropRep
            ([getTitle props props.object,
              Node.safeObjectLink props (some "objectLeftBrace") " \x7b "] ++
              (ps.map Node.propRep ++
                (if (o.keys.length : Int) > maxOfMode props.mode then
                  [moreCaption props (effectiveLength props.object) (maxOfMode props.mode)]
                 else [])) ++
              [Node.safeObjectLink props (some "objectRightBrace") " \x7d"])).length =
            ps.length := by
          simp only [List.filter_append, filter_isPropRep_map, List.length_append,
            List.length_map]
          split <;>
            simp [getTitle, Node.isPropRep, Node.propRepProps?, moreCaption, List.filter_cons]
        rw [hfilter, hlen]
        exact hle

/-- C2, counterexample: a grip whose preview holds one of its ten own properties
has effective length 10, above the max 3, and yet `truncate` is false and
`propIterator` returns no truncation marker. -/
theorem truncate_false_with_length_above_max :
    effectiveLength exampleGripShortPreview = some 10 ∧ (10 : Int) > 3 ∧
    truncateOf (effectiveProperties exampleGripShortPreview) 3 = .ok false ∧
    (safePropIterator { object := exampleGripShortPreview } exampleGripShortPreview
      (some 3)).map Node.captionText? = [none] := by
  refine ⟨rfl, by decide, rfl, rfl⟩

/-- C2, amended: for every grip with a preview and every max, `truncate` is true
if and only if the number of entries of the effective mapping (the own properties
of the preview, merged with the safe getter values when there are some) is greater
than max; the lengths `ownPropertiesLength` and `ownPropertyLength` play no part.
A preview with neither own properties nor safe getter values raises a TypeError. -/
theorem truncate_iff_entry_count_gt_max (object : Grip) (preview : Preview) (max : Int) :
    truncateOf (effectiveProperties { object with preview := some preview }) max =
      (match preview.safeGetterValues, preview.ownProperties with
       | none, none => .error JSError.typeError
       | none, some own => .ok (decide ((own.keys.length : Int) > max))
       | some getters, own =>
         .ok (decide (((objectAssign (objectAssign [] own)
           (some getters)).keys.length : Int) > max))) := by
  obtain ⟨own, ownLength, getters, wrapped⟩ := preview
  cases getters with
  | none =>
    cases own with
    | none => rfl
    | some own => rfl
  | some getters => rfl

/-- C3: the property indexes that `getProps` displays for the indexes selected by
`propIterator` are in strictly ascending order, and the `PropRep` elements it
returns show the names at these indexes in that order. -/
theorem displayed_indexes_strictly_ascending (props : Props Grip) (object : Grip)
    (max : Int) (truncate suppressQuotes : Bool) :
    List.Sorted (fun a b => a < b)
      (sortIndexes (selectIndexes (effectiveProperties object) (effectiveLength object)
        max (interestingPropOf props))) ∧
    ∃ ps : List (Props JSValue),
      getProps props (effectiveProperties object)
        (selectIndexes (effectiveProperties object) (effectiveLength object) max
          (interestingPropOf props)) truncate suppressQuotes = .ok (ps.map Node.propRep) ∧
      ps.map (fun p => p.name) =
        (sortIndexes (selectIndexes (effectiveProperties object) (effectiveLength object)
          max (interestingPropOf props))).map
          (fun i => (((effectiveProperties object).getD []).keys[i]?).map JSValue.string) := by
  refine ⟨sortIndexes_sorted_lt _ (selectIndexes_nodup _ _ _ _), ?_⟩
  cases ho : effectiveProperties object with
  | none =>
    refine ⟨[], ?_, ?_⟩
    · simp [selectIndexes_none, getProps, sortIndexes, getPropsLoop]
    · simp [selectIndexes_none, sortIndexes]
  | some o =>
    obtain ⟨ps, hps, hall⟩ := getProps_selectIndexes_ok props o (effectiveLength object)
      max (interestingPropOf props) truncate suppressQuotes
    exact ⟨ps, hps, forall2_propRepProps_names props o _ truncate suppressQuotes _ ps hall⟩

/-- C4, failing input: on a grip with three safe getters (`x` returning the empty
string, `y` returning 5, `z` returning 6) and no own property, the effective
length is not a number, so the fill pass does not run; `getProps` receives the
indexes 1 and 2 with `truncate` false, and gives `y`, which is not the last
displayed property, the delimiter `""` and `z`, the last one, the delimiter `", "`. -/
theorem delimiter_follows_index_value_not_position :
    effectiveLength exampleGripGetters = none ∧
    selectIndexes (effectiveProperties exampleGripGetters)
      (effectiveLength exampleGripGetters) 3 defaultIsInterestingProp = [1, 2] ∧
    truncateOf (effectiveProperties exampleGripGetters) 3 = .ok false ∧
    (safePropIterator { object := exampleGripGetters } exampleGripGetters (some 3)).map
      (fun n => (n.propName?, n.propDelim?)) =
      [(some "y", some ""), (some "z", some ", ")] := by
  refine ⟨rfl, by decide, rfl, by decide⟩

/-- C5: on a grip without `wrappedValue` whose effective mapping has at most `max`
entries, whose effective length is at least that number of entries and whose
entries all resolve and classify without failure, the two passes select every
index `0 … n-1` exactly once, and `propIterator` returns one `PropRep` element per
entry, in the enumeration order of the mapping, with no truncation marker. -/
theorem all_properties_displayed_in_order (props : Props Grip) (object : Grip) (max : Int)
    (o : JSObject) (len : Int)
    (hw : object.preview.bind (fun preview => preview.wrappedValue) = none)
    (ho : effectiveProperties object = some o)
    (hn : (o.keys.length : Int) ≤ max)
    (hl : effectiveLength object = some len)
    (hlen : (o.keys.length : Int) ≤ len)
    (hok : ∀ name ∈ o.keys, (classify o (interestingPropOf props) name).toBool = true) :
    (selectIndexes (effectiveProperties object) (effectiveLength object) max
      (interestingPropOf props)).Perm (List.range o.keys.length) ∧
    ∃ ps : List (Props JSValue),
      propIterator props object max = .ok (ps.map Node.propRep) ∧
      ps.map (fun p => p.name) = o.keys.map (fun k => some (JSValue.string k)) := by
  have hsel := selectIndexes_all o len max (interestingPropOf props) hn hlen hok
  have hperm : (selectIndexes (some o) (some len) max (interestingPropOf props)).Perm
      (List.range o.keys.length) := by
    rw [hsel, List.range_eq_range']
    exact acceptedIndexes_perm o (interestingPropOf props) o.keys 0 hok
  refine ⟨by rw [ho, hl]; exact hperm, ?_⟩
  obtain ⟨ps, hps, hall⟩ := propIterator_some props object max o hw ho
  rw [hl, sortIndexes_eq_range _ _ hperm] at hall
  refine ⟨ps, ?_, ?_⟩
  · rw [hps, if_neg (by omega), List.append_nil]
  · rw [forall2_propRepProps_names props o _ _ _ _ ps hall, map_getElem?_range]

/-- C5, witness: the example grip `a: 1`, `b: ""`, `c: "hi"` with max 3. -/
theorem all_properties_displayed_in_order_witness :
    ((effectiveProperties exampleGripAbc).getD []).keys = ["a", "b", "c"] ∧
    (selectIndexes (effectiveProperties exampleGripAbc) (effectiveLength exampleGripAbc) 3
      (interestingPropOf { object := exampleGripAbc })).Perm (List.range 3) ∧
    ∃ ps : List (Props JSValue),
      propIterator { object := exampleGripAbc } exampleGripAbc 3 = .ok (ps.map Node.propRep) ∧
      ps.map (fun p => p.name) =
        ["a", "b", "c"].map (fun k => some (JSValue.string k)) :=
  ⟨rfl, all_properties_displayed_in_order { object := exampleGripAbc } exampleGripAbc 3
    [("a", valueDescriptor (.number 1)), ("b", valueDescriptor (.string "")),
     ("c", valueDescriptor (.string "hi"))] 3 rfl rfl (by decide) rfl (by decide)
    (by decide)⟩

/-- C6: on a grip without `wrappedValue`, `propIterator` returns the `PropRep`
elements followed by a truncation marker exactly when `truncate` is true; the
marker is then the last token, a caption whose text is the number
`propertiesLength - max` followed by the word more and an ellipsis. -/
theorem truncation_marker_iff_truncate (props : Props Grip) (object : Grip) (max : Int)
    (o : JSObject)
    (hw : object.preview.bind (fun preview => preview.wrappedValue) = none)
    (ho : effectiveProperties object = some o) :
    ∃ (ps : List (Props JSValue)) (truncate : Bool),
      truncateOf (effectiveProperties object) max = .ok truncate ∧
      propIterator props object max =
        .ok (ps.map Node.propRep ++
          (if truncate then
            [Node.caption (Node.safeObjectLink props none
              (numberToString ((effectiveLength object).map (fun l => l - max)) ++ " more…"))]
           else [])) := by
  obtain ⟨ps, hps, _⟩ := propIterator_some props object max o hw ho
  refine ⟨ps, decide ((o.keys.length : Int) > max), ?_, ?_⟩
  · rw [ho]
    rfl
  · rw [hps]
    simp only [decide_eq_true_eq, moreCaption, moreText]

/-- C6, witness: four own properties `0` to `3` with `ownPropertiesLength` 4 and
max 3 give the properties `0`, `1`, `2` followed by the marker `1 more…`. -/
theorem truncation_marker_iff_truncate_witness :
    (∃ (ps : List (Props JSValue)) (truncate : Bool),
      truncateOf (effectiveProperties exampleGripArray) 3 = .ok truncate ∧
      propIterator { object := exampleGripArray } exampleGripArray 3 =
        .ok (ps.map Node.propRep ++
          (if truncate then
            [Node.caption (Node.safeObjectLink { object := exampleGripArray } none
              (numberToString ((effectiveLength exampleGripArray).map (fun l => l - 3)) ++
                " more…"))]
           else []))) ∧
    truncateOf (effectiveProperties exampleGripArray) 3 = .ok true ∧
    (safePropIterator { object := exampleGripArray } exampleGripArray (some 3)).map
      (fun n => (n.propName?, n.captionText?)) =
      [(some "0", none), (some "1", none), (some "2", none), (none, some "1 more…")] :=
  ⟨truncation_marker_iff_truncate { object := exampleGripArray } exampleGripArray 3
    [("0", valueDescriptor (.number 1)), ("1", valueDescriptor (.number 2)),
     ("2", valueDescriptor (.number 3)), ("3", valueDescriptor (.number 4))] rfl rfl,
   rfl, by decide⟩

/-- C7, counterexample: the second descriptor of the grip is `null`, so its
classification raises a TypeError; `GripRep` in the default mode still shows the
property `a` between the braces, so its output is not title-only. -/
theorem null_descriptor_still_shows_earlier_property :
    (classify ((effectiveProperties exampleGripNullDescriptor).getD [])
      defaultIsInterestingProp "b").toBool = false ∧
    (GripRep { object := exampleGripNullDescriptor }).children.map Node.propName? =
      [none, none, some "a", none] := by
  refine ⟨by decide, by decide⟩

/-- C7, amended: when resolving or classifying the entry at position `k` of the
effective mapping fails, `GripRep` in a mode other than `TINY` returns the title,
the left brace, a list of `PropRep` elements, the truncation marker when the
mapping has more than max entries, and the right brace; every property shown
stands at a position before `k`, so that no property is shown when `k` is 0. -/
theorem failing_entry_hides_later_properties (props : Props Grip) (o : JSObject)
    (k : Nat) (name : String)
    (hm : props.mode ≠ some Mode.TINY)
    (hw : props.object.preview.bind (fun preview => preview.wrappedValue) = none)
    (ho : effectiveProperties props.object = some o)
    (hk : o.keys[k]? = some name)
    (herr : (classify o (interestingPropOf props) name).toBool = false) :
    ∃ ps : List (Props JSValue),
      GripRep props = Node.span (some "objectBox objectBox-object")
        ([getTitle props props.object,
          Node.safeObjectLink props (some "objectLeftBrace") " \x7b "] ++
         (ps.map Node.propRep ++
          (if (o.keys.length : Int) > maxOfMode props.mode then
            [moreCaption props (effectiveLength props.object) (maxOfMode props.mode)]
           else [])) ++
         [Node.safeObjectLink props (some "objectRightBrace") " \x7d"]) ∧
      ∀ p ∈ ps, ∃ i, i < k ∧ p.name = (o.keys[i]?).map JSValue.string := by
  obtain ⟨ps, hps, hall⟩ :=
    propIterator_some props props.object (maxOfMode props.mode) o hw ho
  refine ⟨ps, ?_, ?_⟩
  · unfold GripRep
    simp only [hm, if_false, safePropIterator, Option.getD_some, hps]
  · intro p hp
    obtain ⟨i, hi, hpi⟩ := forall2_mem_right _ _ _ hall p hp
    have hi2 : i ∈ selectIndexes (some o) (effectiveLength props.object)
        (maxOfMode props.mode) (interestingPropOf props) :=
      (List.perm_insertionSort _ _).mem_iff.mp hi
    exact ⟨i, selectIndexes_lt_of_error o _ _ _ k name hk herr i hi2,
      (propRepProps_inv props o _ _ _ i p hpi).1⟩

/-- C7, witness of the amended statement: the grip whose second descriptor is
`null`, at position 1. -/
theorem failing_entry_hides_later_properties_witness :
    (({ object := exampleGripNullDescriptor } : Props Grip).mode ≠ some Mode.TINY) ∧
    (classify [("a", valueDescriptor (.number 1)), ("b", .null)]
      defaultIsInterestingProp "b").toBool = false ∧
    ∃ ps : List (Props JSValue),
      GripRep { object := exampleGripNullDescriptor } =
        Node.span (some "objectBox objectBox-object")
          ([getTitle { object := exampleGripNullDescriptor } exampleGripNullDescriptor,
            Node.safeObjectLink { object := exampleGripNullDescriptor }
              (some "objectLeftBrace") " \x7b "] ++
           (ps.map Node.propRep ++ []) ++
           [Node.safeObjectLink { object := exampleGripNullDescriptor }
              (some "objectRightBrace") " \x7d"]) ∧
      ∀ p ∈ ps, ∃ i, i < 1 ∧
        p.name = ((["a", "b"] : List String)[i]?).map JSValue.string :=
  ⟨by decide, by decide,
   failing_entry_hides_later_properties { object := exampleGripNullDescriptor }
    [("a", valueDescriptor (.number 1)), ("b", .null)] 1 "b"
    (by decide) rfl rfl rfl (by decide)⟩

/-- C8, counterexample: in `LONG` mode the `wrappedValue` of a preview is handed
to the dispatcher with mode `LONG`, not `TINY`. -/
theorem wrapped_value_rendered_in_parent_mode :
    (GripRep { object := exampleGripWrapped, mode := some Mode.LONG }).children.map
      Node.repMode? = [none, none, some Mode.LONG, none] ∧
    Mode.LONG ≠ Mode.TINY := by
  refine ⟨rfl, by decide⟩

/-- C8, amended: of the tokens the grip renderer builds, every `PropRep` element
carries mode `TINY` whatever the mode of the parent, and its `render` hands the
value of the property to the dispatcher with these props, hence with mode `TINY`
(the name, a string, goes to no dispatcher); a `wrappedValue` of the preview is
handed to the dispatcher with the mode of the parent, `TINY` only when the
context has no mode. -/
theorem nested_render_modes (props : Props Grip) (object : Grip) (max : Option Int)
    (n : Node) (hn : n ∈ safePropIterator props object max) :
    (∀ p, n = Node.propRep p →
      p.mode = some Mode.TINY ∧
      ∃ name, PropRep.render p =
        Node.span none
          [Node.span (some "nodeName") [Node.text name],
           Node.span (some "objectEqual") [Node.text ": "],
           Node.rep p,
           Node.span (some "objectComma") (textChild p.delim)]) ∧
    (∀ p, n = Node.rep p →
      object.preview.bind (fun preview => preview.wrappedValue) = some p.object ∧
      p.mode = some (props.mode.getD Mode.TINY)) := by
  simp only [safePropIterator] at hn
  cases hw : object.preview.bind (fun preview => preview.wrappedValue) with
  | some w =>
    simp only [propIterator, hw, List.mem_singleton] at hn
    subst hn
    refine ⟨fun p hp => (by cases hp), fun p hp => ?_⟩
    cases hp
    exact ⟨rfl, rfl⟩
  | none =>
    cases ho : effectiveProperties object with
    | none =>
      rw [propIterator_none props object _ hw ho] at hn
      simp at hn
    | some o =>
      obtain ⟨ps, hps, hall⟩ := propIterator_some props object (max.getD 3) o hw ho
      rw [hps] at hn
      simp only [List.mem_append, List.mem_map] at hn
      rcases hn with ⟨q, hq, rfl⟩ | hn
      · refine ⟨fun p hp => ?_, fun p hp => (by cases hp)⟩
        cases hp
        obtain ⟨i, hi, hqi⟩ := forall2_mem_right _ _ _ hall q hq
        have hi2 : i ∈ selectIndexes (some o) (effectiveLength object) (max.getD 3)
            (interestingPropOf props) :=
          (List.perm_insertionSort _ _).mem_iff.mp hi
        obtain ⟨name, hname, _⟩ := selectIndexes_mem o _ _ _ i hi2
        have hinv := propRepProps_inv props o _ _ _ i q hqi
        have heq := propRepProps_equal props o _ _ _ i q hqi
        refine ⟨hinv.2.1, name, ?_⟩
        rw [PropRep.render_of_string_name q name (by rw [hinv.1, hname]; rfl), heq.1]
        rfl
      · split at hn
        · simp only [List.mem_singleton] at hn
          subst hn
          exact ⟨fun p hp => (by cases hp), fun p hp => (by cases hp)⟩
        · simp at hn

/-- C8, witness of the amended statement: the token of the property `a` of the
example grip `a: 1`, `b: ""`, `c: "hi"` rendered in `LONG` mode. -/
theorem nested_render_modes_witness :
    (Node.propRep examplePropRepA ∈
      safePropIterator { object := exampleGripAbc, mode := some Mode.LONG }
        exampleGripAbc (some 10)) ∧
    (∀ p, Node.propRep examplePropRepA = Node.propRep p →
      p.mode = some Mode.TINY ∧
      ∃ name, PropRep.render p =
        Node.span none
          [Node.span (some "nodeName") [Node.text name],
           Node.span (some "objectEqual") [Node.text ": "],
           Node.rep p,
           Node.span (some "objectComma") (textChild p.delim)]) ∧
    (∀ p, Node.propRep examplePropRepA = Node.rep p →
      exampleGripAbc.preview.bind (fun preview => preview.wrappedValue) = some p.object ∧
      p.mode = some ((some Mode.LONG).getD Mode.TINY)) :=
  ⟨@List.getElem?_mem _ _ 0 _ rfl,
   nested_render_modes { object := exampleGripAbc, mode := some Mode.LONG }
    exampleGripAbc (some 10) (Node.propRep examplePropRepA)
    (@List.getElem?_mem _ _ 0 _ rfl)⟩

/-- C9: when the preview of the grip has a `wrappedValue` key, `propIterator`
returns exactly one token, the render by the dispatcher of `preview.wrappedValue`
with the mode of the context, or `TINY` when the context has no mode; the result
holds whatever `max`, the own properties, the safe getter values and the
interesting-property predicate are, so that no property takes part in it. -/
theorem wrapped_value_short_circuits (props : Props Grip) (object : Grip) (max : Int)
    (preview : Preview) (wrappedValue : JSValue)
    (hp : object.preview = some preview)
    (hw : preview.wrappedValue = some wrappedValue) :
    propIterator props object max =
      .ok [Node.rep { object := wrappedValue
                      mode := some (props.mode.getD Mode.TINY)
                      defaultRep := some RepId.Grip }] := by
  unfold propIterator
  simp only [hp, Option.some_bind, hw]

/-- C9, witness: a preview that wraps the number 1 and also holds a `null`
descriptor, rendered in `LONG` mode. -/
theorem wrapped_value_short_circuits_witness :
    propIterator { object := exampleGripWrapped, mode := some Mode.LONG }
      { class_ := some "Object"
        preview := some
          { ownProperties := some [("b", .null)], wrappedValue := some (.number 1) } } 10 =
      .ok [Node.rep { object := .number 1
                      mode := some Mode.LONG
                      defaultRep := some RepId.Grip }] :=
  wrapped_value_short_circuits { object := exampleGripWrapped, mode := some Mode.LONG }
    { class_ := some "Object"
      preview := some
        { ownProperties := some [("b", .null)], wrappedValue := some (.number 1) } } 10
    { ownProperties := some [("b", .null)], wrappedValue := some (.number 1) }
    (.number 1) rfl rfl

/-- C10: in `TINY` mode the node `GripRep` returns has the title as its only
child, whatever the preview contains. -/
theorem tiny_mode_renders_title_only (props : Props Grip)
    (hm : props.mode = some Mode.TINY) :
    GripRep props =
      Node.span (some "objectBox objectBox-object") [getTitle props props.object] ∧
    (GripRep props).children =
      [Node.safeObjectLink props none (titleOf props props.object)] := by
  unfold GripRep
  simp only [hm, if_true, Node.children, getTitle, and_self]

/-- C10, witness: the example grip with four own properties in `TINY` mode. -/
theorem tiny_mode_renders_title_only_witness :
    GripRep { object := exampleGripArray, mode := some Mode.TINY } =
      Node.span (some "objectBox objectBox-object")
        [getTitle { object := exampleGripArray, mode := some Mode.TINY } exampleGripArray] ∧
    (GripRep { object := exampleGripArray, mode := some Mode.TINY }).children =
      [Node.safeObjectLink { object := exampleGripArray, mode := some Mode.TINY } none
        "Array"] :=
  tiny_mode_renders_title_only { object := exampleGripArray, mode := some Mode.TINY } rfl

theorem getPropValue_cases (d : JSValue) :
    getPropValue d =
      match d with
      | .null => .error JSError.typeError
      | .object fields =>
        if (JSObject.keys fields).contains "value" then .ok (JSObject.get fields "value")
        else if (JSObject.keys fields).contains "getterValue" then
          .ok (JSObject.get fields "getterValue")
        else .ok d
      | _ => .ok d := by
  cases d <;> simp [getPropValue, JSValue.typeof]

/-- C11, failing input: `typeof null` is `"object"`, so `getPropValue(null)` calls
`Object.keys(null)` and raises a TypeError instead of returning `null` unchanged. -/
theorem getPropValue_null_raises :
    JSValue.null.typeof = "object" ∧
    getPropValue JSValue.null = .error JSError.typeError := by
  exact ⟨rfl, rfl⟩

/-- C12, counterexample: a grip whose `preview.ownProperties` is the empty mapping
is accepted, the value returned being the empty object, which is truthy. -/
theorem supportsObject_accepts_empty_ownProperties :
    (exampleGripEmpty.preview.bind (fun preview => preview.ownProperties)) = some [] ∧
    (supportsObject (fun _ => true) exampleGripEmpty).truthy = true := by
  exact ⟨rfl, rfl⟩

/-- C12, amended: `supportsObject` returns a truthy value if and only if the
value is recognized as a grip and has a preview whose `ownProperties` is
present, be it empty or not. -/
theorem supportsObject_iff_ownProperties_present (isGrip : Grip → Bool) (object : Grip) :
    (supportsObject isGrip object).truthy = true ↔
      isGrip object = true ∧
      ∃ preview ownProperties, object.preview = some preview ∧
        preview.ownProperties = some ownProperties := by
  unfold supportsObject
  cases hg : isGrip object with
  | false => simp [JSValue.truthy]
  | true =>
    cases hp : object.preview with
    | none => simp [JSValue.truthy]
    | some preview =>
      cases ho : preview.ownProperties with
      | none => simp [JSValue.truthy, ho]
      | some own => simp [JSValue.truthy, ho]

/-- C13, counterexample: a grip that has a preview without `ownPropertiesLength`
and whose `ownPropertyLength` is 7 has effective length 7; and the example with
no own property and the safe getter `x`, given without `ownPropertiesLength`,
has an effective length that is not a number, while `x` is displayed. -/
theorem effective_length_falls_back_with_preview :
    exampleGripFallback.preview.isSome = true ∧
    (exampleGripFallback.preview.bind (fun preview => preview.ownPropertiesLength)) = none ∧
    effectiveLength exampleGripFallback = some 7 ∧
    effectiveLength exampleGripGetterX = none ∧
    (safePropIterator { object := exampleGripGetterX } exampleGripGetterX (some 3)).map
      Node.propName? = [some "x"] := by
  refine ⟨rfl, rfl, rfl, rfl, by decide⟩

/-- C13, amended: the effective length is `preview.ownPropertiesLength` when the
grip has a preview with an `ownPropertiesLength` (other than 0), and
`ownPropertyLength` when the grip has no preview or a preview without
`ownPropertiesLength`; when the preview has `safeGetterValues`, the number of its
entries is added, a length that is not a number staying so. -/
theorem effective_length_by_cases (object : Grip)
    (h : ∀ preview, object.preview = some preview → preview.ownPropertiesLength ≠ some 0) :
    effectiveLength object =
      match object.preview with
      | none => object.ownPropertyLength
      | some preview =>
        match preview.safeGetterValues with
        | some getters =>
          (match preview.ownPropertiesLength with
            | some n => some n
            | none => object.ownPropertyLength).map
            (fun n => n + (getters.keys.length : Int))
        | none =>
          match preview.ownPropertiesLength with
          | some n => some n
          | none => object.ownPropertyLength := by
  obtain ⟨cls, preview, ownPropertyLength⟩ := object
  cases preview with
  | none => rfl
  | some preview =>
    have h0 := h preview rfl
    obtain ⟨own, ownLength, getters, wrapped⟩ := preview
    cases ownLength with
    | none => cases getters <;> rfl
    | some n =>
      have hn : n ≠ 0 := fun hz => h0 (by rw [hz])
      cases getters <;> simp [effectiveLength, hn]

/-- C13, witness of the amended statement: one own property with
`ownPropertiesLength` 1 and one safe getter give the effective length 2. -/
theorem effective_length_by_cases_witness :
    (∀ preview, exampleGripOwnAndGetter.preview = some preview →
      preview.ownPropertiesLength ≠ some 0) ∧
    effectiveLength exampleGripOwnAndGetter = some 2 :=
  ⟨fun _ hp => by cases hp; decide,
   effective_length_by_cases exampleGripOwnAndGetter (fun _ hp => by cases hp; decide)⟩

/-- C14, counterexample: with the empty string as title the class of the grip is
rendered, and with the empty string as class the literal `Object` is. -/
theorem empty_title_falls_through :
    getTitle { object := { class_ := some "Foo" }, title := some "" } { class_ := some "Foo" } =
      Node.safeObjectLink { object := { class_ := some "Foo" }, title := some "" } none "Foo" ∧
    getTitle { object := { class_ := some "" } } { class_ := some "" } =
      Node.safeObjectLink { object := { class_ := some "" } } none "Object" := by
  exact ⟨rfl, rfl⟩

/-- C14, amended: the title text is the title of the context when one is provided
and is not the empty string, otherwise the class of the grip when it has one that
is not the empty string, otherwise the literal `Object`. -/
theorem title_resolution (props : Props Grip) (object : Grip) :
    getTitle props object =
      Node.safeObjectLink props none
        (match props.title.filter (fun t => t != ""),
               object.class_.filter (fun c => c != "") with
         | some t, _ => t
         | none, some c => c
         | none, none => "Object") := by
  unfold getTitle titleOf
  cases ht : props.title with
  | none =>
    cases hc : object.class_ with
    | none => rfl
    | some c => by_cases hce : c = "" <;> simp [Option.filter, hce]
  | some t =>
    by_cases hte : t = ""
    · cases hc : object.class_ with
      | none => simp [Option.filter, hte]
      | some c => by_cases hce : c = "" <;> simp [Option.filter, hte, hce]
    · simp [Option.filter, hte]

theorem acceptsAt_eq_classify (o : JSObject) (filter : Filter) (i : Nat) (name : String)
    (hname : o.keys[i]? = some name) :
    acceptsAt o filter i =
      match classify o filter name with
      | .ok b => b
      | .error _ => false := by
  simp only [acceptsAt, hname, classify, bind, Except.bind]
  cases getPropValue (o.get name) with
  | error e => rfl
  | ok value =>
    simp only []
    cases typeOfValue value with
    | error e => rfl
    | ok type => rfl

theorem acceptedIndexes_eq_filter (o : JSObject) (filter : Filter) (names : List String)
    (i : Nat) (hdrop : o.keys.drop i = names)
    (hok : ∀ name ∈ names, (classify o filter name).toBool = true) :
    acceptedIndexes o filter names i =
      (List.range' i names.length).filter (acceptsAt o filter) := by
  induction names generalizing i with
  | nil => simp [acceptedIndexes]
  | cons name rest ih =>
    have hname : o.keys[i]? = some name := by
      have h0 : (o.keys.drop i)[0]? = some name := by rw [hdrop]; simp
      simpa [List.getElem?_drop] using h0
    have hrest : o.keys.drop (i + 1) = rest := by
      have h1 : (o.keys.drop i).drop 1 = rest := by rw [hdrop]; rfl
      simpa [List.drop_drop, Nat.add_comm] using h1
    have ih' := ih (i + 1) hrest (fun nm hnm => hok nm (List.mem_cons_of_mem _ hnm))
    have hcl := hok name (List.mem_cons_self _ _)
    have hacc := acceptsAt_eq_classify o filter i name hname
    unfold acceptedIndexes
    cases hc : classify o filter name with
    | error e => simp [hc, Except.toBool] at hcl
    | ok b =>
      rw [hc] at hacc
      cases b with
      | true =>
        simp only [List.length_cons, List.range'_succ, List.filter_cons, hacc, if_true, ih']
      | false =>
        simp only [List.length_cons, List.range'_succ, List.filter_cons, hacc, ih']
        simp

/-- C15: when no entry fails to resolve or classify, `getPropIndexes` returns the
first `max` elements of the ascending list of the positions whose resolved value,
lower-cased type and name satisfy the filter, and every index it returns is
smaller than the number of entries. -/
theorem getPropIndexes_eq_take_filter (o : JSObject) (max : Int) (filter : Filter)
    (hok : ∀ name ∈ o.keys, (classify o filter name).toBool = true) :
    getPropIndexes (some o) max filter =
      ((List.range o.keys.length).filter (acceptsAt o filter)).take max.toNat ∧
    ∀ j ∈ getPropIndexes (some o) max filter, j < o.keys.length := by
  have heq := acceptedIndexes_eq_filter o filter o.keys 0 (by simp) hok
  refine ⟨?_, ?_⟩
  · rw [getPropIndexes_some, heq, List.range_eq_range']
  · intro j hj
    rw [getPropIndexes_some] at hj
    have := acceptedIndexes_lt o filter o.keys 0 j (List.mem_of_mem_take hj)
    omega

/-- C15, witness: the example mapping `a: 1`, `b: ""`, `c: "hi"`, with max 1 and
the default predicate, gives the index of `a` alone out of the accepted 0 and 2. -/
theorem getPropIndexes_eq_take_filter_witness :
    (List.range 3).filter (acceptsAt
      [("a", valueDescriptor (.number 1)), ("b", valueDescriptor (.string "")),
       ("c", valueDescriptor (.string "hi"))] defaultIsInterestingProp) = [0, 2] ∧
    getPropIndexes (some
      [("a", valueDescriptor (.number 1)), ("b", valueDescriptor (.string "")),
       ("c", valueDescriptor (.string "hi"))]) 1 defaultIsInterestingProp = [0] ∧
    (getPropIndexes (some
      [("a", valueDescriptor (.number 1)), ("b", valueDescriptor (.string "")),
       ("c", valueDescriptor (.string "hi"))]) 1 defaultIsInterestingProp =
      ((List.range 3).filter (acceptsAt
        [("a", valueDescriptor (.number 1)), ("b", valueDescriptor (.string "")),
         ("c", valueDescriptor (.string "hi"))] defaultIsInterestingProp)).take 1 ∧
     ∀ j ∈ getPropIndexes (some
        [("a", valueDescriptor (.number 1)), ("b", valueDescriptor (.string "")),
         ("c", valueDescriptor (.string "hi"))]) 1 defaultIsInterestingProp, j < 3) :=
  ⟨by decide, by decide,
   getPropIndexes_eq_take_filter
    [("a", valueDescriptor (.number 1)), ("b", valueDescriptor (.string "")),
     ("c", valueDescriptor (.string "hi"))] 1 defaultIsInterestingProp (by decide)⟩

/-- C17: no index returned by the second pass of `propIterator`, which runs
`getPropIndexes` with the inverted predicate, is in the result of the first pass,
and the concatenated index list has no duplicate; this holds also when some entry
fails to resolve or classify. -/
theorem second_pass_disjoint_from_first (properties : Option JSObject)
    (propertiesLength : Option Int) (max : Int) (isInterestingProp : Filter) :
    List.Disjoint (getPropIndexes properties max isInterestingProp)
      (getPropIndexes properties
        (max - ((getPropIndexes properties max isInterestingProp).length : Int))
        (negateFilter isInterestingProp)) ∧
    (selectIndexes properties propertiesLength max isInterestingProp).Nodup := by
  refine ⟨?_, selectIndexes_nodup _ _ _ _⟩
  cases properties with
  | none => simp [getPropIndexes]
  | some o =>
    intro j h1 h2
    rw [getPropIndexes_some] at h1 h2
    exact acceptedIndexes_disjoint o isInterestingProp o.keys 0 j
      (List.mem_of_mem_take h1) (List.mem_of_mem_take h2)

theorem utf16Length_eq_zero (s : String) : utf16Length s = 0 ↔ s = "" := by
  obtain ⟨cs⟩ := s
  cases cs with
  | nil => simp [utf16Length]
  | cons c cs =>
    have hne : (String.mk (c :: cs)) ≠ "" := by
      intro h
      have := congrArg String.data h
      simp at this
    simp only [utf16Length, List.map_cons, List.sum_cons, hne, iff_false]
    split <;> omega

theorem typeOfValue_primitive :
    (∀ b, typeOfValue (.boolean b) = .ok "boolean") ∧
    (∀ n, typeOfValue (.number n) = .ok "number") ∧
    (∀ s, typeOfValue (.string s) = .ok "string") := by
  refine ⟨fun b => ?_, fun n => ?_, fun s => ?_⟩ <;>
    simp [typeOfValue, JSValue.getProp, bind, Except.bind, JSValue.truthy, JSValue.typeof] <;>
    decide

theorem defaultIsInterestingProp_eq (type : String) (value : JSValue) (name : String) :
    defaultIsInterestingProp type value name =
      if type = "boolean" ∨ type = "number" then .ok true
      else if type = "string" then
        match value.getProp "length" with
        | .ok length => .ok (!(looseEqZero length))
        | .error e => .error e
      else .ok false := by
  unfold defaultIsInterestingProp
  by_cases h1 : type = "boolean" ∨ type = "number"
  · rcases h1 with h1 | h1 <;> simp [h1]
  · have hb : type ≠ "boolean" := fun h => h1 (Or.inl h)
    have hn : type ≠ "number" := fun h => h1 (Or.inr h)
    by_cases hs : type = "string"
    · simp only [hs, bind, Except.bind]
      cases value.getProp "length" <;> simp
    · simp [hb, hn, hs, h1]

theorem classify_ok_iff (o : JSObject) (filter : Filter) (name : String) (b : Bool) :
    classify o filter name = .ok b ↔
      ∃ value type, getPropValue (o.get name) = .ok value ∧ typeOfValue value = .ok type ∧
        filter type value name = .ok b := by
  simp only [classify, bind, Except.bind]
  constructor
  · intro h
    cases hv : getPropValue (o.get name) with
    | error e => simp [hv] at h
    | ok value =>
      simp only [hv] at h
      cases ht : typeOfValue value with
      | error e => simp [ht] at h
      | ok type =>
        simp only [ht] at h
        exact ⟨value, type, rfl, ht, h⟩
  · rintro ⟨value, type, hv, ht, hf⟩
    simp only [hv, ht, hf]

theorem defaultIsInterestingProp_ok_true_iff (type : String) (value : JSValue)
    (name : String) :
    defaultIsInterestingProp type value name = .ok true ↔
      (type = "boolean" ∨ type = "number" ∨
        (type = "string" ∧ ∃ length, value.getProp "length" = .ok length ∧
          looseEqZero length = false)) := by
  rw [defaultIsInterestingProp_eq]
  by_cases h1 : type = "boolean" ∨ type = "number"
  · simp only [h1, if_true, true_iff]
    rcases h1 with h1 | h1
    · exact Or.inl h1
    · exact Or.inr (Or.inl h1)
  · have hb : type ≠ "boolean" := fun h => h1 (Or.inl h)
    have hn : type ≠ "number" := fun h => h1 (Or.inr h)
    simp only [h1, if_false, hb, hn, false_or]
    by_cases hs : type = "string"
    · simp only [hs, if_true, true_and]
      cases hl : value.getProp "length" with
      | error e => simp
      | ok length => cases hz : looseEqZero length <;> simp [hz]
    · simp [hs]

theorem toLowerCase_eq_toLower (s : String) : toLowerCase s = s.toLower := by
  simp [toLowerCase, String.toLower, String.map_eq]

theorem typeOfValue_eq_claimedType (value : JSValue) :
    (typeOfValue value).toOption = claimedType value := by
  cases value with
  | undefined => rfl
  | null => rfl
  | boolean b => rw [typeOfValue_primitive.1]; rfl
  | number n => rw [typeOfValue_primitive.2.1]; rfl
  | string s => rw [typeOfValue_primitive.2.2]; rfl
  | object fields =>
    have hobj : toLowerCase "object" = "object" := by decide
    simp only [typeOfValue, JSValue.getProp, bind, Except.bind, claimedType, JSValue.typeof]
    cases hc : JSObject.get fields "class" with
    | undefined => simp [JSValue.truthy, hobj, Except.toOption]
    | null => simp [JSValue.truthy, hobj, Except.toOption]
    | boolean b => cases b <;> simp [JSValue.truthy, hobj, Except.toOption]
    | number n =>
      by_cases hn : n = 0 <;> simp [JSValue.truthy, hobj, Except.toOption, hn]
    | string c =>
      by_cases hce : c = "" <;>
        simp [JSValue.truthy, hobj, Except.toOption, hce, toLowerCase_eq_toLower]
    | object fs => simp [JSValue.truthy, Except.toOption]

theorem typeOfValue_ok_iff (value : JSValue) (type : String) :
    typeOfValue value = .ok type ↔ claimedType value = some type := by
  rw [← typeOfValue_eq_claimedType]
  cases typeOfValue value <;> simp [Except.toOption]

/-- C16: when the context supplies no `isInterestingProp`, the predicate that
`propIterator` uses accepts a property exactly when its value resolves and the
type of the value, its `class` field if present and otherwise its primitive type,
lower-cased, is `boolean`, `number`, or `string` with `value.length != 0`. The type
that the code computes is this type for every value. So a boolean and a number
are accepted and a string exactly when it is not empty; an object with a `class`
is judged on its lower-cased class, and an object without one is rejected. -/
theorem default_predicate_iff (props : Props Grip) (o : JSObject) (name : String)
    (hnone : props.isInterestingProp = none) :
    (classify o (interestingPropOf props) name = .ok true ↔
      ∃ value type, getPropValue (o.get name) = .ok value ∧ claimedType value = some type ∧
        (type = "boolean" ∨ type = "number" ∨
          (type = "string" ∧ ∃ length, value.getProp "length" = .ok length ∧
            looseEqZero length = false))) ∧
    (∀ value, (typeOfValue value).toOption = claimedType value) ∧
    (∀ b, getPropValue (o.get name) = .ok (.boolean b) →
      classify o (interestingPropOf props) name = .ok true) ∧
    (∀ n, getPropValue (o.get name) = .ok (.number n) →
      classify o (interestingPropOf props) name = .ok true) ∧
    (∀ s, getPropValue (o.get name) = .ok (.string s) →
      classify o (interestingPropOf props) name = .ok (decide (s ≠ ""))) ∧
    (∀ fields c, getPropValue (o.get name) = .ok (.object fields) →
      JSObject.get fields "class" = .string c → c ≠ "" →
      (classify o (interestingPropOf props) name = .ok true ↔
        (c.toLower = "boolean" ∨ c.toLower = "number" ∨
          (c.toLower = "string" ∧ looseEqZero (JSObject.get fields "length") = false)))) ∧
    (∀ fields, getPropValue (o.get name) = .ok (.object fields) →
      (JSObject.get fields "class").truthy = false →
      classify o (interestingPropOf props) name = .ok false) := by
  have hf : interestingPropOf props = defaultIsInterestingProp := by
    unfold interestingPropOf
    rw [hnone]
  rw [hf]
  have hmain : classify o defaultIsInterestingProp name = .ok true ↔
      ∃ value type, getPropValue (o.get name) = .ok value ∧ claimedType value = some type ∧
        (type = "boolean" ∨ type = "number" ∨
          (type = "string" ∧ ∃ length, value.getProp "length" = .ok length ∧
            looseEqZero length = false)) := by
    rw [classify_ok_iff]
    constructor
    · rintro ⟨value, type, hv, ht, hd⟩
      exact ⟨value, type, hv, (typeOfValue_ok_iff value type).mp ht,
        (defaultIsInterestingProp_ok_true_iff type value name).mp hd⟩
    · rintro ⟨value, type, hv, ht, hd⟩
      exact ⟨value, type, hv, (typeOfValue_ok_iff value type).mpr ht,
        (defaultIsInterestingProp_ok_true_iff type value name).mpr hd⟩
  refine ⟨hmain, typeOfValue_eq_claimedType, ?_, ?_, ?_, ?_, ?_⟩
  · intro b hv
    simp only [classify, bind, Except.bind, hv, typeOfValue_primitive.1]
    rfl
  · intro n hv
    simp only [classify, bind, Except.bind, hv, typeOfValue_primitive.2.1]
    rfl
  · intro s hv
    simp only [classify, bind, Except.bind, hv, typeOfValue_primitive.2.2]
    rw [defaultIsInterestingProp_eq]
    have hlen : (JSValue.string s).getProp "length" = .ok (.number (utf16Length s)) := by
      simp [JSValue.getProp]
    simp only [hlen]
    have hz := utf16Length_eq_zero s
    by_cases hs : s = ""
    · have h0 : utf16Length s = 0 := hz.mpr hs
      simp [h0, looseEqZero, hs]
      rfl
    · have h0 : utf16Length s ≠ 0 := fun h => hs (hz.mp h)
      simp [hs, looseEqZero, h0]
  · intro fields c hv hclass hc
    have htype : claimedType (.object fields) = some c.toLower := by
      simp [claimedType, hclass, hc]
    rw [hmain]
    constructor
    · rintro ⟨value, type, hv2, ht, hd⟩
      rw [hv] at hv2
      cases hv2
      rw [htype] at ht
      cases ht
      rcases hd with hd | hd | ⟨hs, length, hl, hz⟩
      · exact Or.inl hd
      · exact Or.inr (Or.inl hd)
      · simp only [JSValue.getProp, Except.ok.injEq] at hl
        subst hl
        exact Or.inr (Or.inr ⟨hs, hz⟩)
    · intro hd
      refine ⟨.object fields, c.toLower, hv, htype, ?_⟩
      rcases hd with hd | hd | ⟨hs, hz⟩
      · exact Or.inl hd
      · exact Or.inr (Or.inl hd)
      · exact Or.inr (Or.inr ⟨hs, JSObject.get fields "length", rfl, hz⟩)
  · intro fields hv hclass
    have htype : typeOfValue (.object fields) = .ok "object" := by
      rw [typeOfValue_ok_iff]
      simp only [claimedType]
      cases hc : JSObject.get fields "class" with
      | string c =>
        rw [hc] at hclass
        have : c = "" := by simpa [JSValue.truthy] using hclass
        simp [this]
      | undefined => simp [JSValue.truthy]
      | null => simp [JSValue.truthy]
      | boolean b => rw [hc] at hclass; simp [hclass]
      | number n => rw [hc] at hclass; simp [hclass]
      | object fs => rw [hc] at hclass; simp [JSValue.truthy] at hclass
    simp only [classify, bind, Except.bind, hv, htype]
    rfl

/-- C16, witness: with the default predicate, a value whose `class` is `Number` is
accepted, and so is one whose class is written `BOOLEAN`; a plain `Object` and a
`String` object of length 0 are rejected; in the example grip `a: 1`, `b: ""`,
`c: "hi"` the empty string `b` is rejected. -/
theorem default_predicate_iff_witness :
    (({ object := exampleGripAbc } : Props Grip).isInterestingProp = none) ∧
    classify exampleMappingTyped (interestingPropOf { object := exampleGripAbc }) "n" =
      .ok true ∧
    classify exampleMappingTyped (interestingPropOf { object := exampleGripAbc }) "t" =
      .ok true ∧
    classify exampleMappingTyped (interestingPropOf { object := exampleGripAbc }) "o" =
      .ok false ∧
    classify exampleMappingTyped (interestingPropOf { object := exampleGripAbc }) "s" =
      .ok false ∧
    classify exampleMappingAbc (interestingPropOf { object := exampleGripAbc }) "b" =
      .ok (decide (("" : String) ≠ "")) ∧
    classify exampleMappingAbc (interestingPropOf { object := exampleGripAbc }) "a" =
      .ok true :=
  ⟨rfl,
   ((default_predicate_iff { object := exampleGripAbc } exampleMappingTyped "n"
      rfl).2.2.2.2.2.1 [("class", .string "Number")] "Number" rfl rfl (by decide)).mpr
      (Or.inr (Or.inl (by rw [← toLowerCase_eq_toLower]; decide))),
   rfl, rfl, rfl,
   (default_predicate_iff { object := exampleGripAbc } exampleMappingAbc "b"
      rfl).2.2.2.2.1 "" rfl,
   (default_predicate_iff { object := exampleGripAbc } exampleMappingAbc "a"
      rfl).2.2.2.1 1 rfl⟩

theorem selectIndexes_length_eq_max (o : JSObject) (len max : Int) (filter : Filter)
    (hmax : 0 ≤ max) (hn : max < (o.keys.length : Int))
    (hlen : (o.keys.length : Int) ≤ len)
    (hok : ∀ name ∈ o.keys, (classify o filter name).toBool = true) :
    ((selectIndexes (some o) (some len) max filter).length : Int) = max := by
  have hperm := acceptedIndexes_perm o filter o.keys 0 hok
  have hsum := hperm.length_eq
  simp only [List.length_append, List.length_range'] at hsum
  unfold selectIndexes
  simp only [getPropIndexes_some]
  split
  · rename_i hcond
    simp only [ltLength, Bool.and_eq_true, decide_eq_true_eq, List.length_take] at hcond
    simp only [List.length_append, List.length_take, Nat.cast_add]
    omega
  · rename_i hcond
    simp only [ltLength, Bool.and_eq_true, decide_eq_true_eq, List.length_take, not_and,
      not_lt] at hcond
    simp only [List.length_take]
    by_cases hlt : ((min max.toNat (acceptedIndexes o filter o.keys 0).length : Nat) : Int) < max
    · have := hcond hlt
      omega
    · omega

/-- C18: on a grip without `wrappedValue` whose effective mapping has more than
`max` entries (`max` not negative), whose effective length is at least the number
of entries and whose entries all resolve and classify without failure,
`propIterator` returns exactly `max` `PropRep` elements followed by the truncation
marker, and the number in the marker, the effective length minus `max`, is the
effective length minus the number of displayed properties. -/
theorem truncated_grip_displays_max_properties (props : Props Grip) (object : Grip)
    (max : Int) (o : JSObject) (len : Int)
    (hw : object.preview.bind (fun preview => preview.wrappedValue) = none)
    (ho : effectiveProperties object = some o)
    (hmax : 0 ≤ max)
    (hn : max < (o.keys.length : Int))
    (hl : effectiveLength object = some len)
    (hlen : (o.keys.length : Int) ≤ len)
    (hok : ∀ name ∈ o.keys, (classify o (interestingPropOf props) name).toBool = true) :
    ∃ ps : List (Props JSValue),
      propIterator props object max =
        .ok (ps.map Node.propRep ++
          [Node.caption (Node.safeObjectLink props none
            (numberToString (some (len - (ps.length : Int))) ++ " more…"))]) ∧
      (ps.length : Int) = max := by
  obtain ⟨ps, hps, hall⟩ := propIterator_some props object max o hw ho
  have hlenps : (ps.length : Int) = max := by
    rw [← hall.length_eq, sortIndexes, List.length_insertionSort, hl]
    exact selectIndexes_length_eq_max o len max (interestingPropOf props) hmax hn hlen hok
  refine ⟨ps, ?_, hlenps⟩
  rw [hps, if_pos (by omega), hl, hlenps]
  rfl

/-- C18, witness: the example grip with four own properties and max 3. -/
theorem truncated_grip_displays_max_properties_witness :
    (safePropIterator { object := exampleGripArray } exampleGripArray (some 3)).map
      Node.captionText? = [none, none, none, some "1 more…"] ∧
    ∃ ps : List (Props JSValue),
      propIterator { object := exampleGripArray } exampleGripArray 3 =
        .ok (ps.map Node.propRep ++
          [Node.caption (Node.safeObjectLink { object := exampleGripArray } none
            (numberToString (some (4 - (ps.length : Int))) ++ " more…"))]) ∧
      (ps.length : Int) = 3 :=
  ⟨by decide,
   truncated_grip_displays_max_properties { object := exampleGripArray } exampleGripArray 3
    [("0", valueDescriptor (.number 1)), ("1", valueDescriptor (.number 2)),
     ("2", valueDescriptor (.number 3)), ("3", valueDescriptor (.number 4))] 4
    rfl rfl (by decide) (by decide) rfl (by decide) (by decide)⟩

theorem insertProperty_append (acc : JSObject) (name : String) (v : JSValue)
    (h : ∀ a ∈ acc.keys, precedes a name = true) :
    insertProperty acc name v = acc ++ [(name, v)] := by
  unfold insertProperty
  cases hidx : arrayIndex? name with
  | none => rfl
  | some n =>
    have htake : acc.takeWhile (fun p =>
        match arrayIndex? p.1 with
        | some m => decide (m < n)
        | none => false) = acc := by
      rw [List.takeWhile_eq_self_iff]
      intro p hp
      have hpre := h p.1 (List.mem_map_of_mem _ hp)
      simp only [precedes, hidx, Bool.and_eq_true] at hpre
      exact hpre.2
    simp only [htake, List.drop_length]

theorem setProperty_append (acc : JSObject) (name : String) (v : JSValue)
    (h : ∀ a ∈ acc.keys, precedes a name = true) :
    setProperty acc name v = acc ++ [(name, v)] := by
  unfold setProperty
  have hnot : acc.keys.contains name = false := by
    rw [Bool.eq_false_iff]
    intro hc
    have hmem : name ∈ acc.keys := by simpa using hc
    have hpre := h name hmem
    simp [precedes] at hpre
  rw [hnot]
  simp only [Bool.false_eq_true, if_false]
  exact insertProperty_append acc name v h

theorem foldl_setProperty_append (acc l : JSObject)
    (h : (acc.keys ++ l.keys).Pairwise (fun a b => precedes a b = true)) :
    l.foldl (fun o p => setProperty o p.1 p.2) acc = acc ++ l := by
  induction l generalizing acc with
  | nil => simp
  | cons p rest ih =>
    obtain ⟨name, v⟩ := p
    have hpair := h
    simp only [JSObject.keys, List.map_cons, List.pairwise_append, List.pairwise_cons,
      List.mem_cons, forall_eq_or_imp] at hpair
    obtain ⟨hacc, ⟨hname, hrest⟩, hcross⟩ := hpair
    have hstep : setProperty acc name v = acc ++ [(name, v)] :=
      setProperty_append acc name v (fun a ha => (hcross a ha).1)
    simp only [List.foldl_cons, hstep]
    rw [ih (acc ++ [(name, v)])]
    · simp
    · have hkeys : (acc ++ [(name, v)]).keys ++ JSObject.keys rest =
          acc.keys ++ JSObject.keys ((name, v) :: rest) := by
        simp [JSObject.keys]
      rw [hkeys]
      exact h

/-- C19, counterexample: when the name `a` is both an own property and a safe
getter, the effective mapping has the single entry `a` although the effective
length counts 2; and a safe getter named `0` is enumerated before the own
property `b`. -/
theorem merged_mapping_keeps_one_entry_per_name :
    (effectiveProperties exampleGripSharedName).map JSObject.keys = some ["a"] ∧
    effectiveLength exampleGripSharedName = some 2 ∧
    (effectiveProperties exampleGripIndexGetter).map JSObject.keys = some ["0", "b"] := by
  refine ⟨by decide, rfl, by decide⟩

/-- C19, amended: for a preview that has `safeGetterValues`, when the names of the
own properties followed by the names of the safe getters are pairwise distinct
and in enumeration order (no name in both sources, array-index names first and
ascending), the effective mapping is the own entries in their order followed by
the safe getter entries in their order, and its number of entries is the sum of
the two numbers of entries. -/
theorem merged_mapping_is_own_then_getters (object : Grip) (preview : Preview)
    (getters : JSObject)
    (hp : object.preview = some preview)
    (hg : preview.safeGetterValues = some getters)
    (horder : ((preview.ownProperties.getD []).keys ++ getters.keys).Pairwise
      (fun a b => precedes a b = true)) :
    effectiveProperties object = some (preview.ownProperties.getD [] ++ getters) ∧
    (effectiveProperties object).map (fun o => o.keys.length) =
      some ((preview.ownProperties.getD []).keys.length + getters.keys.length) := by
  have hown : objectAssign [] preview.ownProperties = preview.ownProperties.getD [] := by
    cases hop : preview.ownProperties with
    | none => rfl
    | some own =>
      rw [hop] at horder
      simp only [objectAssign, Option.getD_some]
      have := foldl_setProperty_append [] own (by
        simpa [JSObject.keys] using (List.pairwise_append.mp horder).1)
      simpa using this
  have hmerge : effectiveProperties object =
      some (preview.ownProperties.getD [] ++ getters) := by
    unfold effectiveProperties
    simp only [hp, hg]
    rw [hown]
    simp only [objectAssign]
    rw [foldl_setProperty_append _ _ horder]
  refine ⟨hmerge, ?_⟩
  rw [hmerge]
  simp [JSObject.keys]

/-- C19, witness of the amended statement: one own property `a` and one safe
getter `x`. -/
theorem merged_mapping_is_own_then_getters_witness :
    effectiveProperties exampleGripOwnAndGetter =
      some ([("a", valueDescriptor (.number 1))] ++ [("x", getterDescriptor (.number 5))]) ∧
    (effectiveProperties exampleGripOwnAndGetter).map (fun o => o.keys.length) =
      some (1 + 1) :=
  merged_mapping_is_own_then_getters exampleGripOwnAndGetter
    { ownProperties := some [("a", valueDescriptor (.number 1))]
      ownPropertiesLength := some 1
      safeGetterValues := some [("x", getterDescriptor (.number 5))] }
    [("x", getterDescriptor (.number 5))] rfl rfl (by decide)

theorem propRepProps_frame (componentProps : Props Grip) (o : JSObject) (length : Nat)
    (truncate suppressQuotes : Bool) (i : Nat) (p : Props JSValue)
    (h : propRepProps componentProps (some o) length truncate suppressQuotes i = .ok p) :
    getPropValue (o.get ((o.keys[i]?).getD "undefined")) = .ok p.object ∧
    p.isInterestingProp = componentProps.isInterestingProp ∧
    p.attachedActorIds = componentProps.attachedActorIds ∧
    p.onDOMNodeMouseOver = componentProps.onDOMNodeMouseOver ∧
    p.onDOMNodeMouseOut = componentProps.onDOMNodeMouseOut ∧
    p.onInspectIconClick = componentProps.onInspectIconClick ∧
    p.suppressQuotes = some suppressQuotes := by
  simp only [propRepProps, bind, Except.bind] at h
  cases hv : getPropValue (o.get ((o.keys[i]?).getD "undefined")) with
  | error e => simp [hv] at h
  | ok v =>
    simp only [hv, Except.ok.injEq] at h
    subst h
    exact ⟨rfl, rfl, rfl, rfl, rfl, rfl, rfl⟩

theorem getPropsLoop_inv (componentProps : Props Grip) (o : JSObject) (length : Nat)
    (truncate suppressQuotes : Bool) (l : List Nat) (nodes : List Node)
    (h : getPropsLoop componentProps (some o) length truncate suppressQuotes l = .ok nodes) :
    ∀ n ∈ nodes, ∃ i ∈ l, ∃ p,
      propRepProps componentProps (some o) length truncate suppressQuotes i = .ok p ∧
      n = Node.propRep p := by
  induction l generalizing nodes with
  | nil =>
    simp only [getPropsLoop, Except.ok.injEq] at h
    subst h
    intro n hn
    simp at hn
  | cons i rest ih =>
    simp only [getPropsLoop, bind, Except.bind] at h
    cases hp : propRepProps componentProps (some o) length truncate suppressQuotes i with
    | error e => simp [hp] at h
    | ok p =>
      simp only [hp] at h
      cases hr : getPropsLoop componentProps (some o) length truncate suppressQuotes rest with
      | error e => simp [hr] at h
      | ok ns =>
        simp only [hr, Except.ok.injEq] at h
        subst h
        intro n hn
        rcases List.mem_cons.mp hn with hn | hn
        · exact ⟨i, List.mem_cons_self _ _, p, hp, hn⟩
        · obtain ⟨j, hj, q, hq, hnq⟩ := ih ns hr n hn
          exact ⟨j, List.mem_cons_of_mem _ hj, q, hq, hnq⟩

/-- C20, counterexample: the parent context carries an `objectLink`, and none of
the contexts that `getProps` hands to the property formatter has one. -/
theorem objectLink_not_forwarded :
    examplePropsWithLink.objectLink = some 7 ∧
    (safePropIterator examplePropsWithLink exampleGripAbc (some 10)).map
      (fun n => n.propRepProps?.map (fun p => p.objectLink)) =
      [some none, some none, some none] := by
  exact ⟨rfl, rfl⟩

/-- C20, amended: every token that `getProps` returns is a `PropRep` element for
one of the indexes `i`, whose context has the title cleared and mode `TINY`,
carries the `i`-th key of the mapping as name and `getPropValue` of its descriptor
as object, has the per-property fields `equal`, `delim`, `defaultRep` and
`suppressQuotes` set by `getProps`, has no `objectLink` (it is deleted), and is
equal to the context of the parent in every other field. -/
theorem property_context_frame (componentProps : Props Grip) (o : JSObject)
    (indexes : List Nat) (truncate suppressQuotes : Bool) (nodes : List Node) (n : Node)
    (h : getProps componentProps (some o) indexes truncate suppressQuotes = .ok nodes)
    (hn : n ∈ nodes) :
    ∃ i ∈ indexes, ∃ p, n = Node.propRep p ∧
      p.title = none ∧ p.mode = some Mode.TINY ∧
      p.name = (o.keys[i]?).map JSValue.string ∧
      getPropValue (o.get ((o.keys[i]?).getD "undefined")) = .ok p.object ∧
      p.equal = some ": " ∧
      p.delim = some (if (i : Int) ≠ (indexes.length : Int) - 1 || truncate
        then ", " else "") ∧
      p.defaultRep = some RepId.Grip ∧
      p.suppressQuotes = some suppressQuotes ∧
      p.objectLink = none ∧
      p.isInterestingProp = componentProps.isInterestingProp ∧
      p.attachedActorIds = componentProps.attachedActorIds ∧
      p.onDOMNodeMouseOver = componentProps.onDOMNodeMouseOver ∧
      p.onDOMNodeMouseOut = componentProps.onDOMNodeMouseOut ∧
      p.onInspectIconClick = componentProps.onInspectIconClick := by
  unfold getProps at h
  obtain ⟨i, hi, p, hp, hnp⟩ := getPropsLoop_inv componentProps o _ truncate suppressQuotes
    _ nodes h n hn
  have hi2 : i ∈ indexes := (List.perm_insertionSort _ _).mem_iff.mp hi
  have hinv := propRepProps_inv componentProps o _ truncate suppressQuotes i p hp
  have heq := propRepProps_equal componentProps o _ truncate suppressQuotes i p hp
  have hfr := propRepProps_frame componentProps o _ truncate suppressQuotes i p hp
  have hlen : (sortIndexes indexes).length = indexes.length :=
    List.length_insertionSort _ _
  rw [hlen] at hinv
  exact ⟨i, hi2, p, hnp, hinv.2.2.1, hinv.2.1, hinv.1, hfr.1, heq.1, hinv.2.2.2.2, heq.2,
    hfr.2.2.2.2.2.2, hinv.2.2.2.1, hfr.2.1, hfr.2.2.1, hfr.2.2.2.1, hfr.2.2.2.2.1,
    hfr.2.2.2.2.2.1⟩

/-- C20, witness of the amended statement: the token of the property `a` that
`getProps` returns for the indexes 0, 2, 1 of the example mapping, under a parent
context with a title, the mode `LONG` and an `objectLink`. -/
theorem property_context_frame_witness :
    ∃ nodes n,
      getProps examplePropsWithLink (some exampleMappingAbc) [0, 2, 1] false false =
        .ok nodes ∧
      n ∈ nodes ∧ n.propName? = some "a" ∧
      ∃ i ∈ ([0, 2, 1] : List Nat), ∃ p, n = Node.propRep p ∧
        p.title = none ∧ p.mode = some Mode.TINY ∧
        p.name = (exampleMappingAbc.keys[i]?).map JSValue.string ∧
        getPropValue (exampleMappingAbc.get
          ((exampleMappingAbc.keys[i]?).getD "undefined")) = .ok p.object ∧
        p.equal = some ": " ∧
        p.delim = some (if (i : Int) ≠ (([0, 2, 1] : List Nat).length : Int) - 1 || false
          then ", " else "") ∧
        p.defaultRep = some RepId.Grip ∧
        p.suppressQuotes = some false ∧
        p.objectLink = none ∧
        p.isInterestingProp = examplePropsWithLink.isInterestingProp ∧
        p.attachedActorIds = examplePropsWithLink.attachedActorIds ∧
        p.onDOMNodeMouseOver = examplePropsWithLink.onDOMNodeMouseOver ∧
        p.onDOMNodeMouseOut = examplePropsWithLink.onDOMNodeMouseOut ∧
        p.onInspectIconClick = examplePropsWithLink.onInspectIconClick :=
  ⟨_, _, rfl, List.mem_cons_self _ _, rfl,
   property_context_frame examplePropsWithLink exampleMappingAbc [0, 2, 1] false false _ _
    rfl (List.mem_cons_self _ _)⟩

end Reps
